import Mathlib

/-!
# btt-backend: session coordination and move relay

Shallow embedding of `src/main.go` (a Go HTTP server that pairs two players and
relays their moves through two buffered channels per game) and proofs about it.

Layout of the embedding:

* `Chan`            : a Go buffered channel `chan string` (FIFO buffer plus capacity);
* `Game`, `Move`    : the structs of the same names;
* `State`           : the globals `gameData` and `idCounter`, plus the heap of `Game`
                      objects that the `*Game` pointers of `gameData` point into;
* `Thread`          : one running handler (one goroutine of `net/http`), with a program
                      point for every place where the handler touches shared state;
* `stepThread`      : one atomic action of a handler; `none` means the handler is blocked
                      on a channel operation or has finished;
* `World`, `step`, `exec` : a pool of handlers running interleaved;
* `fmtSprintf`      : what `fmt.Fprintf(w, format)` writes when called with no operands.

Go's `int` is taken to be 64 bits wide and `idCounter++` wraps around (`wrapInt`).
-/

namespace BttBackend

/-! ## Go's `int` -/

/-- Largest value of Go's `int` on a 64-bit platform. -/
def maxInt : Int := 9223372036854775807

/-- Smallest value of Go's `int` on a 64-bit platform. -/
def minInt : Int := -9223372036854775808

/-- Two's-complement wrap-around of a mathematical integer into Go's 64-bit `int`. -/
def wrapInt (x : Int) : Int := (x + 9223372036854775808) % 18446744073709551616 - 9223372036854775808

/-! ## `fmt.Fprintf` without operands and `strconv.Itoa`

Every response of the server is written by `fmt.Fprintf(w, s)` with the string `s` in the
position of the format and no operands. The functions below follow `doPrintf` of Go's
package `fmt` for an empty operand list. Go scans the format byte by byte; every byte it
tests for (`%`, flags, digits, `[`, `]`, `*`, `.`) is ASCII and the verb is decoded as a
rune, so on valid UTF-8 the scan over characters below is the same scan. -/

/-- Flags accepted between `%` and the verb: `#`, `0`, `+`, `-` and space. -/
def isFlag (c : Char) : Bool :=
  c == '#' || c == '0' || c == '+' || c == '-' || c == ' '

/-- Go's `parsenum`: reads a decimal number. Returns whether a number was read and the
unread rest; gives up (consuming everything) once the value read so far exceeds `1e6`. -/
def parsenum (num : Nat) (isnum : Bool) : List Char → Bool × List Char
  | [] => (isnum, [])
  | c :: cs =>
    if c.isDigit then
      if num > 1000000 then (false, [])
      else parsenum (num * 10 + (c.toNat - '0'.toNat)) true cs
    else (isnum, c :: cs)

/-- Go's `parseArgNumber` on the text that follows an opening `[`: returns `ok` and the
text left after the bracketed index (only the `[` is skipped when there is no `]`). -/
def parseArgNumber (r : List Char) : Bool × List Char :=
  if r.length < 2 then (false, r)
  else
    match r.span (fun c => c != ']') with
    | (_, []) => (false, r)
    | (inner, _ :: after) =>
      match parsenum 0 false inner with
      | (true, []) => (true, after)
      | _ => (false, after)

/-- Go's `argNumber` with zero operands: `(rest, found, sawIndex)`. With no operands
every explicit index is out of range, so `sawIndex` is the negation of `goodArgNum`. -/
def argNumber (cs : List Char) : List Char × Bool × Bool :=
  match cs with
  | '[' :: r =>
    let (ok, rest) := parseArgNumber r
    (rest, ok, true)
  | _ => (cs, false, false)

/-- The output for the verb that ends a directive, when no operand is left. -/
def verbOutput (bad : Bool) (verb : Char) : List Char :=
  if verb = '%' then ['%']
  else if bad then "%!".data ++ [verb] ++ "(BADINDEX)".data
  else "%!".data ++ [verb] ++ "(MISSING)".data

/-- The width of a directive, with zero operands: `*` asks for an operand that is not
there and writes `%!(BADWIDTH)`; otherwise a decimal width is skipped. Returns the
output, the unread rest and the new value of `afterIndex`. -/
def widthPart (cs : List Char) (afterIndex : Bool) : List Char × List Char × Bool :=
  match cs with
  | '*' :: r => ("%!(BADWIDTH)".data, r, false)
  | _ => ([], (parsenum 0 false cs).2, afterIndex)

/-- The precision of a directive, with zero operands: after a `.` an argument index may
come, then `*` (which writes `%!(BADPREC)`) or a decimal number. Returns the output, the
unread rest, the new value of `afterIndex` and whether an argument index was seen. -/
def precisionPart (cs : List Char) (afterIndex : Bool) :
    List Char × List Char × Bool × Bool :=
  match cs with
  | '.' :: r =>
    match (argNumber r).1 with
    | '*' :: r4 => ("%!(BADPREC)".data, r4, false, (argNumber r).2.2)
    | _ => ([], (parsenum 0 false (argNumber r).1).2, (argNumber r).2.1, (argNumber r).2.2)
  | _ => ([], cs, afterIndex, false)

/-- One directive of the format, with zero operands, read from the text that follows its
`%`: flags, argument index, width, precision, argument index, verb. Returns what the
directive writes and the text left after its verb; a directive cut off by the end of the
format writes `%!(NOVERB)`. -/
def directive (cs : List Char) : List Char × List Char :=
  let idx1 := argNumber (cs.dropWhile isFlag)
  let wid := widthPart idx1.1 idx1.2.1
  let prec := precisionPart wid.2.1 wid.2.2
  let idx2 := if prec.2.2.1 then (prec.2.1, false) else
    ((argNumber prec.2.1).1, (argNumber prec.2.1).2.2)
  match idx2.1 with
  | [] => (wid.1 ++ prec.1 ++ "%!(NOVERB)".data, [])
  | verb :: rest =>
    (wid.1 ++ prec.1 ++ verbOutput (idx1.2.2 || prec.2.2.2 || idx2.2) verb, rest)

/-- Go's `doPrintf` with an empty operand list: text up to the next `%` is copied, then
one directive is processed. `fuel` bounds the number of loop iterations; every iteration
consumes at least one character, so the length of the format is enough. -/
def doPrintf : Nat → List Char → List Char
  | 0, _ => []
  | _, [] => []
  | fuel + 1, c :: cs =>
    if c ≠ '%' then c :: doPrintf fuel cs
    else (directive cs).1 ++ doPrintf fuel (directive cs).2

/-- The bytes that `fmt.Fprintf(w, format)` writes to `w`. -/
def fmtSprintf (format : String) : String :=
  String.mk (doPrintf format.length format.data)

/-- Go's `strconv.Itoa`: decimal digits, with a leading `-` for a negative number. -/
def Itoa (i : Int) : String :=
  match i with
  | Int.ofNat n => String.mk (Nat.toDigits 10 n)
  | Int.negSucc n => String.mk ('-' :: Nat.toDigits 10 (n + 1))

/-! ## Data structures -/

/-- A Go buffered channel of strings: the queued values, oldest first, and the capacity
given to `make`. -/
structure Chan where
  buf : List String
  cap : Nat
deriving DecidableEq

/-- Go's `make(chan string, cap)`. -/
def Chan.make (cap : Nat) : Chan := ⟨[], cap⟩

/-- Channel send `c <- v`: possible when the buffer has room, otherwise the sender blocks
(`none`). -/
def Chan.send (c : Chan) (v : String) : Option Chan :=
  if c.buf.length < c.cap then some { c with buf := c.buf ++ [v] } else none

/-- Channel receive `<-c`: takes the oldest queued value, or blocks (`none`) when the
buffer is empty. -/
def Chan.recv (c : Chan) : Option (String × Chan) :=
  match c.buf with
  | [] => none
  | v :: rest => some (v, { c with buf := rest })

/-- The struct `Game`; `Channels` is the array `[2]chan string`. -/
structure Game where
  ID : Int
  Channels : Chan × Chan
  Player1 : String
  Player2 : String
deriving DecidableEq

/-- The array access `game.Channels[i]`; `none` is an index out of range. -/
def Game.chan (g : Game) (i : Int) : Option Chan :=
  if i = 0 then some g.Channels.1 else if i = 1 then some g.Channels.2 else none

/-- The game after the channel `game.Channels[i]` has changed its contents to `c`. -/
def Game.setChan (g : Game) (i : Int) (c : Chan) : Game :=
  if i = 0 then { g with Channels := (c, g.Channels.2) }
  else if i = 1 then { g with Channels := (g.Channels.1, c) }
  else g

/-- The struct `Move`, as decoded from the request body. -/
structure Move where
  GameID : Int
  Player : Int
  MoveData : String
  GameOver : Bool
deriving DecidableEq

/-- The decoded body of a request, one constructor for each handler. -/
inductive Request where
  | move (m : Move)
  | createGame (player : String)
  | joinGame (gameID : Int) (player : String)
  | checkJoinGame (gameID : Int)
deriving DecidableEq

/-- The shared memory of the server: the `Game` objects allocated so far (a `*Game` is an
index into `heap`), the map `gameData` and the counter `idCounter`. -/
structure State where
  heap : List Game
  gameData : Int → Option Nat
  idCounter : Int

/-- The state when `main` starts serving: an empty map and a zero counter. -/
def State.init : State := ⟨[], fun _ => none, 0⟩

/-- The lookup `gameData[id]` followed by the dereference of the pointer found. -/
def State.lookup (s : State) (id : Int) : Option Game :=
  match s.gameData id with
  | none => none
  | some a => s.heap[a]?

/-- The function `generateID`: increments `idCounter` under its lock and returns it. -/
def generateID (s : State) : Int × State :=
  let c := wrapInt (s.idCounter + 1)
  (c, { s with idCounter := c })

/-- A handler in progress. `pending` has not started; `responded` has returned, with the
string it handed to `fmt.Fprintf` as format (`none` when it returned without writing);
`panicked` stopped with a runtime panic. The other constructors name the shared-memory
action the handler performs next and hold its local variables. -/
inductive Thread where
  | pending (r : Request)
  | moveSend (game : Nat) (m : Move)
  | moveRecv (game : Nat) (m : Move)
  | createInsert (player : String) (newGameID : Int)
  | joinSetPlayer2 (game : Nat) (player : String)
  | joinSend (game : Nat) (player : String)
  | checkRecv (game : Nat)
  | responded (format : Option String)
  | panicked
deriving DecidableEq

/-- The response body the client of a handler receives, if the handler wrote one. -/
def Thread.body : Thread → Option String
  | .responded (some format) => some (fmtSprintf format)
  | _ => none

/-- One atomic action of a handler on the shared state. `none`: the handler cannot move,
because it is blocked on a channel or has already finished.

Each action holds exactly one access to shared memory that other handlers can observe:
a map lookup or insert under `gameDataMutex`, the increment under `idCounterMutex`, the
write of `Player2`, or one channel operation. What a handler does on its own between two
such accesses is folded into the action before it: `createGame` builds the new `Game`
when it inserts it (the object is private until then), and the reads of `game.Channels`
and `game.Player1`, fields nobody writes after creation, go with the lookup respectively
the send. A `move` whose lookup found nothing dereferences a nil pointer on line 82, and
one whose `Player` is not 0 or 1 indexes `Channels` out of range: both panic. -/
def stepThread (s : State) : Thread → Option (State × Thread)
  -- move, lines 79-83: the lookup, then `game.Channels[move.Player]` on the result
  | .pending (.move m) =>
    match s.gameData m.GameID with
    | none => some (s, .panicked)
    | some a =>
      if m.Player = 0 ∨ m.Player = 1 then some (s, .moveSend a m) else some (s, .panicked)
  -- move, lines 84-89: `sendChan <- move.MoveData`, then the early return on `GameOver`
  | .moveSend a m =>
    match s.heap[a]? with
    | none => none
    | some g =>
      match g.chan m.Player with
      | none => none
      | some c =>
        match c.send m.MoveData with
        | none => none
        | some c' =>
          some ({ s with heap := s.heap.set a (g.setChan m.Player c') },
            if m.GameOver then .responded (some "Game over!") else .moveRecv a m)
  -- move, lines 91-92: `response := <-recChan`
  | .moveRecv a m =>
    match s.heap[a]? with
    | none => none
    | some g =>
      match g.chan (1 - m.Player) with
      | none => none
      | some c =>
        match c.recv with
        | none => none
        | some (v, c') =>
          some ({ s with heap := s.heap.set a (g.setChan (1 - m.Player) c') },
            .responded (some v))
  -- createGame, line 107
  | .pending (.createGame player) =>
    some ((generateID s).2, .createInsert player (generateID s).1)
  -- createGame, lines 108-117
  | .createInsert player newGameID =>
    let newGame : Game :=
      { ID := newGameID, Channels := (Chan.make 1, Chan.make 1), Player1 := player,
        Player2 := "" }
    some ({ s with
              heap := s.heap ++ [newGame],
              gameData := fun k => if k = newGameID then some s.heap.length else s.gameData k },
      .responded (some (Itoa newGame.ID)))
  -- joinGame, lines 133-139
  | .pending (.joinGame gameID player) =>
    match s.gameData gameID with
    | none =>
      some (s, .responded (some "error: could not find game ID in checkJoinGame endpoint"))
    | some a => some (s, .joinSetPlayer2 a player)
  -- joinGame, line 141
  | .joinSetPlayer2 a player =>
    match s.heap[a]? with
    | none => none
    | some g =>
      some ({ s with heap := s.heap.set a { g with Player2 := player } }, .joinSend a player)
  -- joinGame, lines 142-143
  | .joinSend a player =>
    match s.heap[a]? with
    | none => none
    | some g =>
      match (g.chan 0).bind (fun c => c.send player) with
      | none => none
      | some c' =>
        some ({ s with heap := s.heap.set a (g.setChan 0 c') }, .responded (some g.Player1))
  -- checkJoinGame, lines 159-165
  | .pending (.checkJoinGame gameID) =>
    match s.gameData gameID with
    | none => some (s, .responded none)
    | some a => some (s, .checkRecv a)
  -- checkJoinGame, lines 166-168
  | .checkRecv a =>
    match s.heap[a]? with
    | none => none
    | some g =>
      match (g.chan 0).bind (fun c => c.recv) with
      | none => none
      | some (v, c') =>
        some ({ s with heap := s.heap.set a (g.setChan 0 c') }, .responded (some v))
  | .responded _ => none
  | .panicked => none

/-- Runs one handler on its own until it has finished or is blocked, for at most `fuel`
atomic actions. No handler has more than four. -/
def runThread : Nat → State → Thread → State × Thread
  | 0, s, t => (s, t)
  | fuel + 1, s, t =>
    match stepThread s t with
    | none => (s, t)
    | some (s', t') => runThread fuel s' t'

/-- The handler `move`, run without interference from other handlers. -/
def move (s : State) (m : Move) : State × Thread :=
  runThread 4 s (.pending (.move m))

/-- The handler `createGame`, run without interference from other handlers. -/
def createGame (s : State) (player : String) : State × Thread :=
  runThread 4 s (.pending (.createGame player))

/-- The handler `joinGame`, run without interference from other handlers. -/
def joinGame (s : State) (gameID : Int) (player : String) : State × Thread :=
  runThread 4 s (.pending (.joinGame gameID player))

/-- The handler `checkJoinGame`, run without interference from other handlers. -/
def checkJoinGame (s : State) (gameID : Int) : State × Thread :=
  runThread 4 s (.pending (.checkJoinGame gameID))

/-- The results of `n` calls of `generateID` made one after the other (the order in
which they hold `idCounterMutex`), oldest first. -/
def generateIDs : Nat → State → List Int
  | 0, _ => []
  | n + 1, s => (generateID s).1 :: generateIDs n (generateID s).2

/-! ## Interleaved handlers -/

/-- What an observer of the channels sees a handler do: `moveSent g p v` is the send of
`v` on `Channels[p]` of the game at `g` by `move` (line 84), `joinSent g v` the send by
`joinGame` (line 142), `moveReturned g p v` the receive by a `move` of player `p`
(line 91) and `joinReturned g v` the receive by `checkJoinGame` (line 166). -/
inductive Event where
  | moveSent (game : Nat) (player : Int) (data : String)
  | joinSent (game : Nat) (player : String)
  | moveReturned (game : Nat) (player : Int) (response : String)
  | joinReturned (game : Nat) (player : String)
deriving DecidableEq

/-- The event that the action from program point `t` to `t'` shows to an observer. -/
def observe : Thread → Thread → List Event
  | .moveSend a m, _ => [.moveSent a m.Player m.MoveData]
  | .joinSend a player, _ => [.joinSent a player]
  | .moveRecv a m, .responded (some v) => [.moveReturned a m.Player v]
  | .checkRecv a, .responded (some v) => [.joinReturned a v]
  | _, _ => []

/-- The server with a pool of concurrent handlers and the events observed so far. -/
structure World where
  state : State
  threads : List Thread
  trace : List Event

/-- The server at start-up with the requests it is going to serve, none started. -/
def World.init (reqs : List Request) : World :=
  ⟨State.init, reqs.map Thread.pending, []⟩

/-- The scheduler lets handler `i` perform its next atomic action; `none` when there is
no such handler or it cannot move. -/
def step (w : World) (i : Nat) : Option World :=
  match w.threads[i]? with
  | none => none
  | some t =>
    match stepThread w.state t with
    | none => none
    | some (s', t') => some ⟨s', w.threads.set i t', w.trace ++ observe t t'⟩

/-- Runs a schedule: the handlers named in `sched` move in that order; `none` when the
schedule names a handler that cannot move at its turn. -/
def exec (w : World) : List Nat → Option World
  | [] => some w
  | i :: sched =>
    match step w i with
    | none => none
    | some w' => exec w' sched

/-! ## Predicates used in the proofs -/

/-- A channel as `createGame` makes it and the handlers keep it: capacity one, at most
one queued value. -/
abbrev Chan.SingleSlot (c : Chan) : Prop := c.cap = 1 ∧ c.buf.length ≤ 1

/-- Every channel of every allocated game is single-slot. -/
abbrev State.SingleSlot (s : State) : Prop :=
  ∀ (a : Nat) (g : Game), s.heap[a]? = some g → g.Channels.1.SingleSlot ∧ g.Channels.2.SingleSlot

/-- The kinds of atomic action of a handler, with what each does to the shared state:
the classification of the outcomes of `stepThread` used by the invariant proofs. -/
inductive Effect (s : State) (t : Thread) (s' : State) (t' : Thread) : Prop where
  | lookup (r : Request) : t = .pending r → (∀ n, r ≠ .createGame n) → s' = s →
      (∀ n k, t' ≠ .createInsert n k) → Effect s t s' t'
  | alloc (n : String) : t = .pending (.createGame n) → s' = (generateID s).2 →
      t' = .createInsert n (generateID s).1 → Effect s t s' t'
  | insert (n : String) (k : Int) : t = .createInsert n k →
      s' = { s with
              heap := s.heap ++ [⟨k, (Chan.make 1, Chan.make 1), n, ""⟩],
              gameData := fun j => if j = k then some s.heap.length else s.gameData j } →
      t' = .responded (some (Itoa k)) → Effect s t s' t'
  | setPlayer2 (a : Nat) (g : Game) (b : String) : t = .joinSetPlayer2 a b →
      s.heap[a]? = some g → s' = { s with heap := s.heap.set a { g with Player2 := b } } →
      t' = .joinSend a b → Effect s t s' t'
  | send (a : Nat) (g : Game) (q : Int) (c : Chan) (v : String) :
      s.heap[a]? = some g → g.chan q = some c → c.buf.length < c.cap →
      s' = { s with heap := s.heap.set a (g.setChan q ⟨c.buf ++ [v], c.cap⟩) } →
      ((∃ m, t = .moveSend a m ∧ q = m.Player ∧ v = m.MoveData) ∨ (t = .joinSend a v ∧ q = 0)) →
      (∀ n k, t' ≠ .createInsert n k) → Effect s t s' t'
  | recv (a : Nat) (g : Game) (q : Int) (c : Chan) (v : String) (rest : List String) :
      s.heap[a]? = some g → g.chan q = some c → c.buf = v :: rest →
      s' = { s with heap := s.heap.set a (g.setChan q ⟨rest, c.cap⟩) } →
      t' = .responded (some v) →
      ((∃ m, t = .moveRecv a m ∧ q = 1 - m.Player) ∨ (t = .checkRecv a ∧ q = 0)) →
      Effect s t s' t'

/-- Every value queued on a channel was put there by a send recorded in the trace: by a
`move` of the slot the channel belongs to or, on `Channels[0]` only, by `joinGame`. -/
abbrev World.Provenance (w : World) : Prop :=
  ∀ (a : Nat) (g : Game), w.state.heap[a]? = some g →
    ∀ (q : Int) (c : Chan), g.chan q = some c → ∀ v, v ∈ c.buf →
      Event.moveSent a q v ∈ w.trace ∨ (q = 0 ∧ Event.joinSent a v ∈ w.trace)

/-- The registry invariant: the counter is not negative; every key of `gameData` lies
between 1 and the counter and points to a game carrying that key as `ID`; every id a
`createGame` has allocated but not yet inserted lies in the same range, is not yet a key,
and is held by that handler alone. -/
abbrev World.RegistryInv (w : World) : Prop :=
  0 ≤ w.state.idCounter ∧
  (∀ (k : Int) (a : Nat), w.state.gameData k = some a →
    1 ≤ k ∧ k ≤ w.state.idCounter ∧ ∃ g : Game, w.state.heap[a]? = some g ∧ g.ID = k) ∧
  (∀ (i : Nat) (n : String) (k : Int), w.threads[i]? = some (.createInsert n k) →
    1 ≤ k ∧ k ≤ w.state.idCounter ∧ w.state.gameData k = none) ∧
  (∀ (i j : Nat) (n n' : String) (k : Int), w.threads[i]? = some (.createInsert n k) →
    w.threads[j]? = some (.createInsert n' k) → i = j)

/-- The program points of a non-final `move` on the game at `a`: 0 not started, 1 at its
send, 2 at its receive, 3 returned with the opponent's payload `opp`. -/
def relayThread (a : Nat) (m : Move) (opp : String) : Nat → Thread
  | 0 => .pending (.move m)
  | 1 => .moveSend a m
  | 2 => .moveRecv a m
  | _ => .responded (some opp)

/-- The game `g` while a `move` of slot 0 with payload `x` is at program point `pc0` and
a `move` of slot 1 with payload `y` is at `pc1`: a payload sits in its mailbox from the
sender's send until the opponent's receive. -/
def relayGame (g : Game) (x y : String) (pc0 pc1 : Nat) : Game :=
  { g with Channels :=
      (⟨if 2 ≤ pc0 ∧ pc1 < 3 then [x] else [], g.Channels.1.cap⟩,
       ⟨if 2 ≤ pc1 ∧ pc0 < 3 then [y] else [], g.Channels.2.cap⟩) }

/-- The world in which the two relay calls are at program points `pc0` and `pc1`. -/
abbrev RelayAt (s : State) (gid : Int) (a : Nat) (g : Game) (x y : String) (pc0 pc1 : Nat)
    (w : World) : Prop :=
  pc0 ≤ 3 ∧ pc1 ≤ 3 ∧ (pc0 = 3 → 2 ≤ pc1) ∧ (pc1 = 3 → 2 ≤ pc0) ∧
  w.threads = [relayThread a ⟨gid, 0, x, false⟩ y pc0, relayThread a ⟨gid, 1, y, false⟩ x pc1] ∧
  w.state = { s with heap := s.heap.set a (relayGame g x y pc0 pc1) }

/-! # Proofs -/

/-! ## Formatting lemmas -/

theorem doPrintf_verbatim (cs : List Char) :
    ∀ fuel, cs.length ≤ fuel → '%' ∉ cs → doPrintf fuel cs = cs := by
  induction cs with
  | nil => intro fuel _ _; cases fuel <;> rfl
  | cons c cs ih =>
    intro fuel hlen hno
    cases fuel with
    | zero => simp at hlen
    | succ fuel =>
      have hc : c ≠ '%' := fun h => hno (by simp [h])
      have hcs : '%' ∉ cs := fun h => hno (by simp [h])
      have hl : cs.length ≤ fuel := by simpa using hlen
      simp only [doPrintf, hc, ne_eq, not_false_eq_true, if_true, ih fuel hl hcs]

theorem fmtSprintf_verbatim (s : String) (h : '%' ∉ s.data) : fmtSprintf s = s := by
  unfold fmtSprintf
  rw [doPrintf_verbatim s.data s.length (Nat.le_refl _) h]

theorem digitChar_ne_percent : ∀ n, n < 10 → Nat.digitChar n ≠ '%' := by
  decide

theorem toDigitsCore_no_percent (fuel : Nat) :
    ∀ (n : Nat) (ds : List Char), '%' ∉ ds → '%' ∉ Nat.toDigitsCore 10 fuel n ds := by
  induction fuel with
  | zero => intro n ds h; simpa [Nat.toDigitsCore] using h
  | succ fuel ih =>
    intro n ds h
    simp only [Nat.toDigitsCore]
    split
    · simp only [List.mem_cons, not_or]
      exact ⟨fun e => digitChar_ne_percent _ (Nat.mod_lt _ (by decide)) e.symm, h⟩
    · apply ih
      simp only [List.mem_cons, not_or]
      exact ⟨fun e => digitChar_ne_percent _ (Nat.mod_lt _ (by decide)) e.symm, h⟩

theorem Itoa_no_percent (i : Int) : '%' ∉ (Itoa i).data := by
  cases i with
  | ofNat n => exact toDigitsCore_no_percent _ _ _ (by simp)
  | negSucc n =>
    simp only [Itoa, List.mem_cons, not_or]
    exact ⟨by decide, toDigitsCore_no_percent _ _ _ (by simp)⟩

theorem fmtSprintf_Itoa (i : Int) : fmtSprintf (Itoa i) = Itoa i :=
  fmtSprintf_verbatim _ (Itoa_no_percent i)


theorem parsenum_length (cs : List Char) :
    ∀ (num : Nat) (isnum : Bool), (parsenum num isnum cs).2.length ≤ cs.length := by
  induction cs with
  | nil => intro num isnum; simp [parsenum]
  | cons c cs ih =>
    intro num isnum
    simp only [parsenum]
    split
    · split
      · simp
      · exact Nat.le_succ_of_le (ih _ _)
    · simp

theorem parseArgNumber_length (r : List Char) : (parseArgNumber r).2.length ≤ r.length := by
  unfold parseArgNumber
  split
  · simp
  · have hspan := List.span_eq_take_drop (fun c => c != ']') r
    split
    · simp
    · rename_i inner x after heq
      rw [heq] at hspan
      simp only [Prod.mk.injEq] at hspan
      have hlen : after.length + 1 ≤ r.length := by
        have h1 := congrArg List.length hspan.2
        have h2 := (List.dropWhile_sublist (fun c => c != ']') (l := r)).length_le
        simp only [List.length_cons] at h1
        omega
      split <;> (simp only; omega)

theorem argNumber_length (cs : List Char) : (argNumber cs).1.length ≤ cs.length := by
  unfold argNumber
  split
  · rename_i r
    have := parseArgNumber_length r
    simp only [List.length_cons]
    omega
  · simp

theorem widthPart_length (cs : List Char) (afterIndex : Bool) :
    (widthPart cs afterIndex).2.1.length ≤ cs.length := by
  unfold widthPart
  split
  · simp
  · exact parsenum_length _ _ _

theorem precisionPart_length (cs : List Char) (afterIndex : Bool) :
    (precisionPart cs afterIndex).2.1.length ≤ cs.length := by
  unfold precisionPart
  split
  · rename_i r
    have h1 := argNumber_length r
    split
    · rename_i r4 heq
      rw [heq] at h1
      simp only [List.length_cons] at h1 ⊢
      omega
    · have h2 := parsenum_length (argNumber r).1 0 false
      simp only [List.length_cons]
      omega
  · simp

theorem secondIndex_length (cs : List Char) (afterIndex : Bool) :
    (if afterIndex then (cs, false) else ((argNumber cs).1, (argNumber cs).2.2)).1.length
      ≤ cs.length := by
  split
  · simp
  · exact argNumber_length cs

/-- A directive leaves less text than it was given, the `%` counted. -/
theorem directive_length (cs : List Char) : (directive cs).2.length ≤ cs.length := by
  have h1 := (List.dropWhile_sublist isFlag (l := cs)).length_le
  have h2 := argNumber_length (cs.dropWhile isFlag)
  have h3 := widthPart_length (argNumber (cs.dropWhile isFlag)).1
    (argNumber (cs.dropWhile isFlag)).2.1
  have h4 := precisionPart_length
    (widthPart (argNumber (cs.dropWhile isFlag)).1 (argNumber (cs.dropWhile isFlag)).2.1).2.1
    (widthPart (argNumber (cs.dropWhile isFlag)).1 (argNumber (cs.dropWhile isFlag)).2.1).2.2
  have h5 := secondIndex_length (precisionPart
    (widthPart (argNumber (cs.dropWhile isFlag)).1 (argNumber (cs.dropWhile isFlag)).2.1).2.1
    (widthPart (argNumber (cs.dropWhile isFlag)).1 (argNumber (cs.dropWhile isFlag)).2.1).2.2).2.1
    (precisionPart
    (widthPart (argNumber (cs.dropWhile isFlag)).1 (argNumber (cs.dropWhile isFlag)).2.1).2.1
    (widthPart (argNumber (cs.dropWhile isFlag)).1 (argNumber (cs.dropWhile isFlag)).2.1).2.2).2.2.1
  unfold directive
  simp only []
  split
  · simp
  · rename_i verb rest heq
    rw [heq] at h5
    simp only [List.length_cons] at h5 ⊢
    omega

/-- The fuel of `doPrintf` does not matter once it covers the length of the format: the
loop never stops for lack of fuel. -/
theorem doPrintf_fuel (n : Nat) :
    ∀ (cs : List Char) (fuel fuel' : Nat), cs.length ≤ n → cs.length ≤ fuel →
      cs.length ≤ fuel' → doPrintf fuel cs = doPrintf fuel' cs := by
  induction n with
  | zero =>
    intro cs fuel fuel' hn _ _
    have : cs = [] := List.length_eq_zero.1 (Nat.le_zero.1 hn)
    subst this
    cases fuel <;> cases fuel' <;> rfl
  | succ n ih =>
    intro cs fuel fuel' hn hf hf'
    cases cs with
    | nil => cases fuel <;> cases fuel' <;> rfl
    | cons c cs =>
      simp only [List.length_cons] at hn hf hf'
      cases fuel with
      | zero => omega
      | succ fuel =>
        cases fuel' with
        | zero => omega
        | succ fuel' =>
          have hd := directive_length cs
          simp only [doPrintf]
          split
          · rw [ih cs fuel fuel' (by omega) (by omega) (by omega)]
          · rw [ih (directive cs).2 fuel fuel' (by omega) (by omega) (by omega)]

/-! ## The identifier allocator and `createGame` -/

theorem wrapInt_of_inRange (x : Int) (hlo : minInt ≤ x) (hhi : x ≤ maxInt) : wrapInt x = x := by
  unfold wrapInt
  unfold minInt at hlo
  unfold maxInt at hhi
  omega

theorem generateIDs_eq (n : Nat) :
    ∀ s : State, minInt ≤ s.idCounter → s.idCounter + n ≤ maxInt →
      generateIDs n s = (List.range n).map (fun k : Nat => s.idCounter + (k : Int) + 1) := by
  induction n with
  | zero => intro s _ _; rfl
  | succ n ih =>
    intro s hlo hhi
    have hw : wrapInt (s.idCounter + 1) = s.idCounter + 1 :=
      wrapInt_of_inRange _ (by omega) (by push_cast at hhi; omega)
    rw [generateIDs, List.range_succ_eq_map, List.map_cons, List.map_map]
    simp only [generateID, hw]
    rw [ih]
    · simp only [Nat.cast_zero, add_zero, List.cons.injEq, true_and]
      apply List.map_congr_left
      intro k _
      simp only [Function.comp_apply, Nat.succ_eq_add_one, Nat.cast_add, Nat.cast_one]
      omega
    · simp only; omega
    · simp only; push_cast at hhi; omega

theorem lookup_createInsert (s1 : State) (n : String) (id : Int) :
    ∃ s2, stepThread s1 (.createInsert n id) = some (s2, .responded (some (Itoa id))) ∧
      s2.gameData id = some s1.heap.length ∧
      s2.lookup id = some ⟨id, (⟨[], 1⟩, ⟨[], 1⟩), n, ""⟩ := by
  refine ⟨_, rfl, ?_, ?_⟩
  · simp
  · simp [State.lookup, Chan.make]

/-- C1: `createGame` takes its id from `generateID`, hands the decimal id to the
response writer (and the body written is that decimal id), and a lookup of the id right
after the insert finds the new game: `ID` is the id, `Player1` the given name, `Player2`
empty, both channels empty with capacity 1. This holds from every state, also when other
handlers ran between the two actions of `createGame` (`s1` is arbitrary), and for the
handler run on its own. -/
theorem createGame_postcondition (s : State) (n : String) :
    stepThread s (.pending (.createGame n))
        = some ((generateID s).2, .createInsert n (generateID s).1) ∧
    (∀ s1 : State, ∃ s2,
      stepThread s1 (.createInsert n (generateID s).1)
          = some (s2, .responded (some (Itoa (generateID s).1))) ∧
      s2.lookup (generateID s).1
          = some ⟨(generateID s).1, (⟨[], 1⟩, ⟨[], 1⟩), n, ""⟩) ∧
    (createGame s n).2 = .responded (some (Itoa (generateID s).1)) ∧
    (createGame s n).2.body = some (Itoa (generateID s).1) ∧
    (createGame s n).1.lookup (generateID s).1
        = some ⟨(generateID s).1, (⟨[], 1⟩, ⟨[], 1⟩), n, ""⟩ := by
  refine ⟨rfl, ?_, ?_, ?_, ?_⟩
  · intro s1
    obtain ⟨s2, h1, _, h3⟩ := lookup_createInsert s1 n (generateID s).1
    exact ⟨s2, h1, h3⟩
  · rfl
  · show (Thread.responded (some (Itoa (generateID s).1))).body = _
    simp only [Thread.body, fmtSprintf_Itoa]
  · simp [createGame, runThread, stepThread, State.lookup, Chan.make]

/-- C4: consecutive calls of `generateID` return the old counter plus one, plus two, and
so on, as long as the counter stays inside Go's `int`; so every call returns exactly the
counter left by the previous call plus one, every result is strictly greater than all
earlier ones, and no result repeats. -/
theorem generateID_strictly_increasing (s : State) (n : Nat)
    (hlo : minInt ≤ s.idCounter) (hhi : s.idCounter + n ≤ maxInt) :
    (generateIDs n s).length = n ∧
    (∀ k, k < n → (generateIDs n s)[k]? = some (s.idCounter + (k : Int) + 1)) ∧
    (0 < n → (generateID s).1 = s.idCounter + 1 ∧ (generateID s).2.idCounter = s.idCounter + 1) ∧
    (generateIDs n s).Pairwise (fun earlier later => earlier < later) ∧
    (generateIDs n s).Nodup := by
  have heq := generateIDs_eq n s hlo hhi
  have hpw : (generateIDs n s).Pairwise (fun earlier later => earlier < later) := by
    rw [heq, List.pairwise_map]
    refine (List.pairwise_lt_range n).imp ?_
    intro a b hab
    omega
  refine ⟨by simp [heq], ?_, ?_, hpw, ?_⟩
  · intro k hk
    simp [heq, List.getElem?_range hk]
  · intro hn
    have hw : wrapInt (s.idCounter + 1) = s.idCounter + 1 :=
      wrapInt_of_inRange _ (by omega) (by omega)
    simp [generateID, hw]
  · exact hpw.imp (fun h => ne_of_lt h)

/-- The first three ids after start-up are 1, 2 and 3. -/
theorem generateID_strictly_increasing_witness :
    (generateIDs 3 State.init) = [1, 2, 3] ∧
    (generateIDs 3 State.init).Pairwise (fun earlier later => earlier < later) :=
  ⟨by decide, (generateID_strictly_increasing State.init 3 (by decide) (by decide)).2.2.2.1⟩

/-! ## Single handlers: `move` and the join handshake -/

theorem lt_length_of_heap {heap : List Game} {a : Nat} {g : Game} (h : heap[a]? = some g) :
    a < heap.length := by
  obtain ⟨hlt, _⟩ := List.getElem?_eq_some.1 h
  exact hlt

/-- C6: on a session id that is not a key of `gameData` (here id 7 on the start-up state,
whose map is empty) the handler `move` stops with a runtime panic: it dereferences the
nil pointer the lookup gave it. It writes no response, so no NotFound reaches the
caller. Heap and counter are as before. -/
theorem move_unknown_session_panics :
    State.init.gameData 7 = none ∧
    (move State.init ⟨7, 0, "e2e4", false⟩).2 = Thread.panicked ∧
    (move State.init ⟨7, 0, "e2e4", false⟩).2.body = none ∧
    (move State.init ⟨7, 0, "e2e4", false⟩).1.heap = [] ∧
    (move State.init ⟨7, 0, "e2e4", false⟩).1.idCounter = 0 :=
  ⟨rfl, rfl, rfl, rfl, rfl⟩

/-- The general form of the panic of `move`: any state, any absent id. The shared state is
left as it was. -/
theorem move_absent (s : State) (m : Move) (h : s.gameData m.GameID = none) :
    move s m = (s, .panicked) := by
  simp [move, runThread, stepThread, h]

/-- C7: a final move (`GameOver` set) on an existing session. After the lookup the
handler is at its send; whenever `Channels[p]` has room, that one action appends the
payload to `Channels[p]`, leaves `Channels[1-p]`, the map, the counter and every other
game as they were, and finishes the handler with "Game over!" handed to the response
writer (the body written is "Game over!"). The handler never reaches the receive: its
only channel event is the send, and once it has responded it takes no further action.
While `Channels[p]` is full the send is blocked. -/
theorem move_final (s : State) (m : Move) (a : Nat)
    (hfinal : m.GameOver = true) (hp : m.Player = 0 ∨ m.Player = 1)
    (hkey : s.gameData m.GameID = some a) :
    stepThread s (.pending (.move m)) = some (s, .moveSend a m) ∧
    (∀ (s1 : State) (g : Game) (c : Chan), s1.heap[a]? = some g → g.chan m.Player = some c →
      (c.buf.length < c.cap →
        ∃ s2 g2, stepThread s1 (.moveSend a m) = some (s2, .responded (some "Game over!")) ∧
          s2.gameData = s1.gameData ∧ s2.idCounter = s1.idCounter ∧
          s2.heap[a]? = some g2 ∧
          g2.chan m.Player = some ⟨c.buf ++ [m.MoveData], c.cap⟩ ∧
          g2.chan (1 - m.Player) = g.chan (1 - m.Player) ∧
          (∀ b, b ≠ a → s2.heap[b]? = s1.heap[b]?)) ∧
      (¬ c.buf.length < c.cap → stepThread s1 (.moveSend a m) = none)) ∧
    observe (.moveSend a m) (.responded (some "Game over!"))
      = [.moveSent a m.Player m.MoveData] ∧
    (Thread.responded (some "Game over!")).body = some "Game over!" ∧
    (∀ s3 : State, stepThread s3 (.responded (some "Game over!")) = none) := by
  refine ⟨?_, ?_, rfl, by decide, fun _ => rfl⟩
  · simp [stepThread, hkey, hp]
  · intro s1 g c hg hc
    have hlt := lt_length_of_heap hg
    constructor
    · intro hroom
      let g2 : Game := g.setChan m.Player ⟨c.buf ++ [m.MoveData], c.cap⟩
      refine ⟨{ s1 with heap := s1.heap.set a g2 }, g2, ?_, rfl, rfl, ?_, ?_, ?_, ?_⟩
      · simp [stepThread, hg, hc, Chan.send, hroom, hfinal]
      · simp [hlt]
      · rcases hp with h | h <;> simp [Game.chan, Game.setChan, h, g2]
      · rcases hp with h | h <;> simp [Game.chan, Game.setChan, h, g2]
      · intro b hb
        simp [List.getElem?_set_ne (Ne.symm hb)]
    · intro hfull
      simp [stepThread, hg, hc, Chan.send, hfull]

/-- The final move of C7 on the session that `createGame "Alice"` makes at start-up. -/
theorem move_final_witness :
    (createGame State.init "Alice").1.gameData 1 = some 0 ∧
    stepThread (createGame State.init "Alice").1 (.pending (.move ⟨1, 0, "x", true⟩))
      = some ((createGame State.init "Alice").1, .moveSend 0 ⟨1, 0, "x", true⟩) ∧
    (move (createGame State.init "Alice").1 ⟨1, 0, "x", true⟩).2
      = .responded (some "Game over!") :=
  ⟨rfl, (move_final (createGame State.init "Alice").1 ⟨1, 0, "x", true⟩ 0 rfl (Or.inl rfl) rfl).1,
    rfl⟩

/-- C2: the join handshake on a session whose `Player1` is `a` and whose `Channels[0]`
is empty. `joinGame` with name `b`, run to its end, hands `a` to the response writer, and
leaves the session with `Player2 = b` and `b` queued on `Channels[0]`. The next
`checkJoinGame` hands exactly `b` to the response writer and leaves `Channels[0]` empty.
A further `checkJoinGame` finds nothing to receive and stays blocked at its receive, so
`b` is delivered once. The same holds for a `checkJoinGame` that was started before the
join: it waits at its receive, and after the join its receive hands over `b`. -/
theorem join_handshake (s : State) (id : Int) (addr : Nat) (g : Game) (a b : String)
    (hkey : s.gameData id = some addr) (hg : s.heap[addr]? = some g)
    (hp1 : g.Player1 = a) (hempty : g.Channels.1.buf = []) (hcap : 0 < g.Channels.1.cap) :
    ∃ s1 s2 : State,
      joinGame s id b = (s1, .responded (some a)) ∧
      s1.lookup id
        = some { g with Player2 := b, Channels := (⟨[b], g.Channels.1.cap⟩, g.Channels.2) } ∧
      checkJoinGame s1 id = (s2, .responded (some b)) ∧
      s2.lookup id
        = some { g with Player2 := b, Channels := (⟨[], g.Channels.1.cap⟩, g.Channels.2) } ∧
      checkJoinGame s2 id = (s2, .checkRecv addr) ∧
      stepThread s2 (.checkRecv addr) = none ∧
      checkJoinGame s id = (s, .checkRecv addr) ∧
      stepThread s1 (.checkRecv addr) = some (s2, .responded (some b)) := by
  have hlt := lt_length_of_heap hg
  let g1 : Game := { g with Player2 := b, Channels := (⟨[b], g.Channels.1.cap⟩, g.Channels.2) }
  let g2 : Game := { g with Player2 := b, Channels := (⟨[], g.Channels.1.cap⟩, g.Channels.2) }
  refine ⟨{ s with heap := s.heap.set addr g1 }, { s with heap := s.heap.set addr g2 },
          ?_, ?_, ?_, ?_, ?_, ?_, ?_, ?_⟩
  · simp [joinGame, runThread, stepThread, hkey, hg, hlt, Game.chan, Game.setChan, Chan.send,
      hempty, hcap, hp1, List.set_set, g1]
  · simp [State.lookup, hkey, hlt]
  · simp [checkJoinGame, runThread, stepThread, hkey, hlt, Game.chan, Game.setChan, Chan.recv,
      List.set_set, g1, g2]
  · simp [State.lookup, hkey, hlt]
  · simp [checkJoinGame, runThread, stepThread, hkey, hlt, Game.chan, Chan.recv]
  · simp [stepThread, hlt, Game.chan, Chan.recv]
  · simp [checkJoinGame, runThread, stepThread, hkey, hg, Game.chan, Chan.recv, hempty]
  · simp [stepThread, hlt, Game.chan, Game.setChan, Chan.recv, List.set_set, g1, g2]

/-- The handshake of C2 on the session that `createGame "Alice"` makes at start-up, with
"Bob" joining. -/
theorem join_handshake_witness :
    (createGame State.init "Alice").1.gameData 1 = some 0 ∧
    (joinGame (createGame State.init "Alice").1 1 "Bob").2 = .responded (some "Alice") ∧
    (checkJoinGame (joinGame (createGame State.init "Alice").1 1 "Bob").1 1).2
      = .responded (some "Bob") ∧
    ∃ s1 s2 : State,
      joinGame (createGame State.init "Alice").1 1 "Bob" = (s1, .responded (some "Alice")) ∧
      checkJoinGame s1 1 = (s2, .responded (some "Bob")) ∧
      checkJoinGame s2 1 = (s2, .checkRecv 0) := by
  refine ⟨rfl, rfl, rfl, ?_⟩
  obtain ⟨s1, s2, h1, _, h3, _, h5, _, _, _⟩ :=
    join_handshake (createGame State.init "Alice").1 1 0
      ⟨1, (⟨[], 1⟩, ⟨[], 1⟩), "Alice", ""⟩ "Alice" "Bob" rfl rfl rfl rfl (by decide)
  exact ⟨s1, s2, h1, h3, h5⟩

/-! ## Interleaved runs: invariants -/

theorem step_eq_some {w w' : World} {i : Nat} (h : step w i = some w') :
    ∃ t s' t', w.threads[i]? = some t ∧ stepThread w.state t = some (s', t') ∧
      w' = ⟨s', w.threads.set i t', w.trace ++ observe t t'⟩ := by
  unfold step at h
  split at h
  · exact absurd h (by simp)
  · rename_i t ht
    split at h
    · exact absurd h (by simp)
    · rename_i s' t' hst
      exact ⟨t, s', t', ht, hst, (Option.some.inj h).symm⟩

/-- An invariant of single steps holds after every schedule. -/
theorem exec_invariant (P : World → Prop)
    (hstep : ∀ w i w', P w → step w i = some w' → P w') :
    ∀ (sched : List Nat) (w w' : World), P w → exec w sched = some w' → P w' := by
  intro sched
  induction sched with
  | nil =>
    intro w w' hP h
    simp only [exec, Option.some.injEq] at h
    exact h ▸ hP
  | cons i sched ih =>
    intro w w' hP h
    simp only [exec] at h
    split at h
    · exact absurd h (by simp)
    · rename_i w1 h1
      exact ih w1 w' (hstep w i w1 hP h1) h

theorem Chan.send_singleSlot {c c' : Chan} {v : String} (hc : c.SingleSlot)
    (h : c.send v = some c') : c'.SingleSlot := by
  unfold Chan.send at h
  split at h
  · rename_i hroom
    cases h
    obtain ⟨h1, h2⟩ := hc
    refine ⟨h1, ?_⟩
    simp only [List.length_append, List.length_singleton]
    omega
  · exact absurd h (by simp)

theorem Chan.recv_singleSlot {c c' : Chan} {v : String} (hc : c.SingleSlot)
    (h : c.recv = some (v, c')) : c'.SingleSlot := by
  unfold Chan.recv at h
  split at h
  · exact absurd h (by simp)
  · rename_i v0 rest hbuf
    simp only [Option.some.injEq, Prod.mk.injEq] at h
    obtain ⟨_, rfl⟩ := h
    obtain ⟨h1, h2⟩ := hc
    refine ⟨h1, ?_⟩
    rw [hbuf] at h2
    simp only [List.length_cons] at h2 ⊢
    omega

theorem Game.setChan_singleSlot {g : Game} {i : Int} {c : Chan}
    (hg : g.Channels.1.SingleSlot ∧ g.Channels.2.SingleSlot) (hc : c.SingleSlot) :
    (g.setChan i c).Channels.1.SingleSlot ∧ (g.setChan i c).Channels.2.SingleSlot := by
  unfold Game.setChan
  split
  · exact ⟨hc, hg.2⟩
  · split
    · exact ⟨hg.1, hc⟩
    · exact hg

theorem Game.chan_singleSlot {g : Game} {i : Int} {c : Chan}
    (hg : g.Channels.1.SingleSlot ∧ g.Channels.2.SingleSlot) (h : g.chan i = some c) :
    c.SingleSlot := by
  unfold Game.chan at h
  split at h
  · cases h; exact hg.1
  · split at h
    · cases h; exact hg.2
    · exact absurd h (by simp)

theorem heap_set_singleSlot {s : State} {a : Nat} {g' : Game} (hs : s.SingleSlot)
    (hg' : g'.Channels.1.SingleSlot ∧ g'.Channels.2.SingleSlot) :
    State.SingleSlot { s with heap := s.heap.set a g' } := by
  intro b g hb
  simp only [List.getElem?_set] at hb
  split at hb
  · split at hb
    · cases hb; exact hg'
    · exact absurd hb (by simp)
  · exact hs b g hb

theorem stepThread_singleSlot {s s' : State} {t t' : Thread} (hs : s.SingleSlot)
    (h : stepThread s t = some (s', t')) : s'.SingleSlot := by
  cases t with
  | pending r =>
    cases r with
    | move m =>
      simp only [stepThread] at h
      split at h
      · cases h; exact hs
      · split at h <;> (cases h; exact hs)
    | createGame n => cases h; exact hs
    | joinGame id n =>
      simp only [stepThread] at h
      split at h <;> (cases h; exact hs)
    | checkJoinGame id =>
      simp only [stepThread] at h
      split at h <;> (cases h; exact hs)
  | moveSend a m =>
    simp only [stepThread] at h
    split at h
    · exact absurd h (by simp)
    · rename_i g hg
      split at h
      · exact absurd h (by simp)
      · rename_i c hc
        split at h
        · exact absurd h (by simp)
        · rename_i c' hsend
          cases h
          exact heap_set_singleSlot hs (Game.setChan_singleSlot (hs a g hg)
            (Chan.send_singleSlot (Game.chan_singleSlot (hs a g hg) hc) hsend))
  | moveRecv a m =>
    simp only [stepThread] at h
    split at h
    · exact absurd h (by simp)
    · rename_i g hg
      split at h
      · exact absurd h (by simp)
      · rename_i c hc
        split at h
        · exact absurd h (by simp)
        · rename_i v c' hrecv
          cases h
          exact heap_set_singleSlot hs (Game.setChan_singleSlot (hs a g hg)
            (Chan.recv_singleSlot (Game.chan_singleSlot (hs a g hg) hc) hrecv))
  | createInsert n k =>
    simp only [stepThread, Option.some.injEq, Prod.mk.injEq] at h
    obtain ⟨rfl, _⟩ := h
    intro b g hb
    simp only [List.getElem?_append] at hb
    split at hb
    · exact hs b g hb
    · rename_i hge
      have : g = ⟨k, (Chan.make 1, Chan.make 1), n, ""⟩ := by
        rcases Nat.eq_zero_or_pos (b - s.heap.length) with h0 | h0
        · rw [h0] at hb; simpa using hb.symm
        · rw [List.getElem?_eq_none (by simp only [List.length_singleton]; omega)] at hb; exact absurd hb (by simp)
      subst this
      exact ⟨⟨rfl, by simp [Chan.make]⟩, ⟨rfl, by simp [Chan.make]⟩⟩
  | joinSetPlayer2 a n =>
    simp only [stepThread] at h
    split at h
    · exact absurd h (by simp)
    · rename_i g hg
      cases h
      exact heap_set_singleSlot hs (hs a g hg)
  | joinSend a n =>
    simp only [stepThread] at h
    split at h
    · exact absurd h (by simp)
    · rename_i g hg
      split at h
      · exact absurd h (by simp)
      · rename_i c' hsend
        cases h
        rcases Option.bind_eq_some.1 hsend with ⟨c, hc, hsend'⟩
        exact heap_set_singleSlot hs (Game.setChan_singleSlot (hs a g hg)
          (Chan.send_singleSlot (Game.chan_singleSlot (hs a g hg) hc) hsend'))
  | checkRecv a =>
    simp only [stepThread] at h
    split at h
    · exact absurd h (by simp)
    · rename_i g hg
      split at h
      · exact absurd h (by simp)
      · rename_i v c' hrecv
        cases h
        rcases Option.bind_eq_some.1 hrecv with ⟨c, hc, hrecv'⟩
        exact heap_set_singleSlot hs (Game.setChan_singleSlot (hs a g hg)
          (Chan.recv_singleSlot (Game.chan_singleSlot (hs a g hg) hc) hrecv'))
  | responded r => exact absurd h (by simp [stepThread])
  | panicked => exact absurd h (by simp [stepThread])

theorem exec_singleSlot (reqs : List Request) (sched : List Nat) (w : World)
    (h : exec (World.init reqs) sched = some w) : w.state.SingleSlot := by
  refine exec_invariant (fun w => w.state.SingleSlot) ?_ sched _ w ?_ h
  · intro w i w' hP hstep
    obtain ⟨t, s', t', _, hst, rfl⟩ := step_eq_some hstep
    exact stepThread_singleSlot hP hst
  · intro a g hg
    simp [World.init, State.init] at hg

/-! ## Classification of atomic actions -/

theorem Chan.send_eq_some {c c' : Chan} {v : String} (h : c.send v = some c') :
    c.buf.length < c.cap ∧ c' = ⟨c.buf ++ [v], c.cap⟩ := by
  unfold Chan.send at h
  split at h
  · rename_i hroom
    exact ⟨hroom, (Option.some.inj h).symm⟩
  · exact absurd h (by simp)

theorem Chan.recv_eq_some {c c' : Chan} {v : String} (h : c.recv = some (v, c')) :
    ∃ rest, c.buf = v :: rest ∧ c' = ⟨rest, c.cap⟩ := by
  unfold Chan.recv at h
  split at h
  · exact absurd h (by simp)
  · rename_i v0 rest hbuf
    simp only [Option.some.injEq, Prod.mk.injEq] at h
    obtain ⟨rfl, rfl⟩ := h
    exact ⟨rest, hbuf, rfl⟩

theorem stepThread_effect {s s' : State} {t t' : Thread}
    (h : stepThread s t = some (s', t')) : Effect s t s' t' := by
  cases t with
  | pending r =>
    cases r with
    | move m =>
      simp only [stepThread] at h
      split at h
      · cases h
        exact .lookup _ rfl (by simp) rfl (by simp)
      · split at h <;> (cases h; exact .lookup _ rfl (by simp) rfl (by simp))
    | createGame n =>
      cases h
      exact .alloc n rfl rfl rfl
    | joinGame id n =>
      simp only [stepThread] at h
      split at h <;> (cases h; exact .lookup _ rfl (by simp) rfl (by simp))
    | checkJoinGame id =>
      simp only [stepThread] at h
      split at h <;> (cases h; exact .lookup _ rfl (by simp) rfl (by simp))
  | moveSend a m =>
    simp only [stepThread] at h
    split at h
    · exact absurd h (by simp)
    · rename_i g hg
      split at h
      · exact absurd h (by simp)
      · rename_i c hc
        split at h
        · exact absurd h (by simp)
        · rename_i c' hsend
          obtain ⟨hroom, rfl⟩ := Chan.send_eq_some hsend
          cases h
          refine .send a g m.Player c m.MoveData hg hc hroom rfl (Or.inl ⟨m, rfl, rfl, rfl⟩) ?_
          intro n k
          split <;> simp
  | moveRecv a m =>
    simp only [stepThread] at h
    split at h
    · exact absurd h (by simp)
    · rename_i g hg
      split at h
      · exact absurd h (by simp)
      · rename_i c hc
        split at h
        · exact absurd h (by simp)
        · rename_i v c' hrecv
          obtain ⟨rest, hbuf, rfl⟩ := Chan.recv_eq_some hrecv
          cases h
          exact .recv a g (1 - m.Player) c v rest hg hc hbuf rfl rfl (Or.inl ⟨m, rfl, rfl⟩)
  | createInsert n k =>
    simp only [stepThread, Option.some.injEq, Prod.mk.injEq] at h
    obtain ⟨rfl, rfl⟩ := h
    exact .insert n k rfl rfl rfl
  | joinSetPlayer2 a n =>
    simp only [stepThread] at h
    split at h
    · exact absurd h (by simp)
    · rename_i g hg
      cases h
      exact .setPlayer2 a g n rfl hg rfl rfl
  | joinSend a n =>
    simp only [stepThread] at h
    split at h
    · exact absurd h (by simp)
    · rename_i g hg
      split at h
      · exact absurd h (by simp)
      · rename_i c' hsend
        cases h
        rcases Option.bind_eq_some.1 hsend with ⟨c, hc, hsend'⟩
        obtain ⟨hroom, rfl⟩ := Chan.send_eq_some hsend'
        exact .send a g 0 c n hg hc hroom rfl (Or.inr ⟨rfl, rfl⟩) (by simp)
  | checkRecv a =>
    simp only [stepThread] at h
    split at h
    · exact absurd h (by simp)
    · rename_i g hg
      split at h
      · exact absurd h (by simp)
      · rename_i v c' hrecv
        cases h
        rcases Option.bind_eq_some.1 hrecv with ⟨c, hc, hrecv'⟩
        obtain ⟨rest, hbuf, rfl⟩ := Chan.recv_eq_some hrecv'
        exact .recv a g 0 c v rest hg hc hbuf rfl rfl (Or.inr ⟨rfl, rfl⟩)
  | responded r => exact absurd h (by simp [stepThread])
  | panicked => exact absurd h (by simp [stepThread])

/-! ## Backpressure -/

theorem Game.chan_setChan_same {g : Game} {q : Int} {c c' : Chan} (h : g.chan q = some c) :
    (g.setChan q c').chan q = some c' := by
  unfold Game.chan at h
  unfold Game.chan Game.setChan
  by_cases h0 : q = 0
  · simp [h0]
  · by_cases h1 : q = 1
    · simp [h1]
    · simp [h0, h1] at h

theorem Game.chan_setChan_other {g : Game} {p q : Int} {c c' : Chan} (h : g.chan q = some c)
    (hpq : p ≠ q) : (g.setChan q c').chan p = g.chan p := by
  unfold Game.chan at h
  unfold Game.chan Game.setChan
  by_cases h0 : q = 0
  · subst h0; simp [hpq]
  · by_cases h1 : q = 1
    · subst h1; simp [hpq]
    · simp [h0, h1] at h

/-- A full single-slot mailbox `Channels[p]` of the game at `a` keeps its message under
every atomic action of every handler, except a receive from that mailbox, which hands
the message to the receiving handler. -/
theorem stepThread_full_mailbox {s s' : State} {t t' : Thread} {a : Nat} {g : Game} {p : Int}
    {c : Chan} {m1 : String} (hg : s.heap[a]? = some g) (hc : g.chan p = some c)
    (hbuf : c.buf = [m1]) (hcap : c.cap = 1) (h : stepThread s t = some (s', t')) :
    ∃ g' c', s'.heap[a]? = some g' ∧ g'.chan p = some c' ∧
      (c' = c ∨ (c'.buf = [] ∧ t' = .responded (some m1) ∧
        ((∃ m, t = .moveRecv a m ∧ 1 - m.Player = p) ∨ (t = .checkRecv a ∧ p = 0)))) := by
  have hlt := lt_length_of_heap hg
  cases stepThread_effect h with
  | lookup r _ _ hs => subst hs; exact ⟨g, c, hg, hc, Or.inl rfl⟩
  | alloc n _ hs _ => subst hs; exact ⟨g, c, hg, hc, Or.inl rfl⟩
  | insert n k _ hs _ =>
    subst hs
    exact ⟨g, c, by simpa [List.getElem?_append_left hlt] using hg, hc, Or.inl rfl⟩
  | setPlayer2 b g0 n _ hg0 hs _ =>
    subst hs
    by_cases hab : b = a
    · subst hab
      rw [hg] at hg0
      cases hg0
      exact ⟨{ g with Player2 := n }, c, by simp [hlt], hc, Or.inl rfl⟩
    · exact ⟨g, c, by simpa [List.getElem?_set_ne hab] using hg, hc, Or.inl rfl⟩
  | send b g0 q c0 v hg0 hc0 hroom hs _ _ =>
    subst hs
    by_cases hab : b = a
    · subst hab
      rw [hg] at hg0
      cases hg0
      by_cases hpq : p = q
      · subst hpq
        rw [hc] at hc0
        cases hc0
        rw [hbuf, hcap] at hroom
        simp at hroom
      · exact ⟨g.setChan q ⟨c0.buf ++ [v], c0.cap⟩, c, by simp [hlt],
          by rw [Game.chan_setChan_other hc0 hpq]; exact hc, Or.inl rfl⟩
    · exact ⟨g, c, by simpa [List.getElem?_set_ne hab] using hg, hc, Or.inl rfl⟩
  | recv b g0 q c0 v rest hg0 hc0 hbuf0 hs ht' hkind =>
    subst hs
    by_cases hab : b = a
    · subst hab
      rw [hg] at hg0
      cases hg0
      by_cases hpq : p = q
      · subst hpq
        rw [hc] at hc0
        cases hc0
        rw [hbuf] at hbuf0
        simp only [List.cons.injEq] at hbuf0
        obtain ⟨rfl, rfl⟩ := hbuf0
        refine ⟨g.setChan p ⟨[], c.cap⟩, ⟨[], c.cap⟩, by simp [hlt], Game.chan_setChan_same hc,
          Or.inr ⟨rfl, ht', ?_⟩⟩
        rcases hkind with ⟨m, hm, hq⟩ | ⟨hm, hq⟩
        · exact Or.inl ⟨m, hm, hq.symm⟩
        · exact Or.inr ⟨hm, hq⟩
      · exact ⟨g.setChan q ⟨rest, c0.cap⟩, c, by simp [hlt],
          by rw [Game.chan_setChan_other hc0 hpq]; exact hc, Or.inl rfl⟩
    · exact ⟨g, c, by simpa [List.getElem?_set_ne hab] using hg, hc, Or.inl rfl⟩

/-- C5: in every state the server can reach, every mailbox has capacity one and holds
at most one message. While `Channels[p]` of a session holds a message `m1`: a `move` of
slot `p` on that session is blocked at its send (run on its own it stops there and the
heap is as before); a receive from the mailbox yields `m1` and empties it; and every
atomic action of any handler either leaves the mailbox holding exactly `m1` or is a
receive from this mailbox that hands `m1` to the receiver. -/
theorem mailbox_backpressure (reqs : List Request) (sched : List Nat) (w : World)
    (hreach : exec (World.init reqs) sched = some w)
    (a : Nat) (g : Game) (p : Int) (c : Chan)
    (hg : w.state.heap[a]? = some g) (hc : g.chan p = some c) :
    c.cap = 1 ∧ c.buf.length ≤ 1 ∧
    ∀ m1, m1 ∈ c.buf →
      c.buf = [m1] ∧
      (∀ m : Move, m.Player = p → stepThread w.state (.moveSend a m) = none) ∧
      (∀ m : Move, m.Player = p → w.state.gameData m.GameID = some a →
        (move w.state m).2 = .moveSend a m ∧ (move w.state m).1.heap = w.state.heap) ∧
      c.recv = some (m1, ⟨[], 1⟩) ∧
      (∀ t s' t', stepThread w.state t = some (s', t') →
        ∃ g' c', s'.heap[a]? = some g' ∧ g'.chan p = some c' ∧
          (c' = c ∨ (c'.buf = [] ∧ t' = .responded (some m1) ∧
            ((∃ m, t = .moveRecv a m ∧ 1 - m.Player = p) ∨ (t = .checkRecv a ∧ p = 0))))) := by
  have hss := exec_singleSlot reqs sched w hreach
  obtain ⟨hcap, hlen⟩ := Game.chan_singleSlot (hss a g hg) hc
  refine ⟨hcap, hlen, ?_⟩
  intro m1 hm1
  have hbuf : c.buf = [m1] := by
    match hb : c.buf, hlen, hm1 with
    | [x], _, hm => simp only [List.mem_singleton] at hm; rw [hm]
    | x :: y :: r, hl, _ => simp at hl
  have hblocked : ∀ m : Move, m.Player = p → stepThread w.state (.moveSend a m) = none := by
    intro m hm
    simp [stepThread, hg, hm, hc, Chan.send, hbuf, hcap]
  have hp01 : p = 0 ∨ p = 1 := by
    unfold Game.chan at hc
    by_cases h0 : p = 0
    · exact Or.inl h0
    · by_cases h1 : p = 1
      · exact Or.inr h1
      · simp [h0, h1] at hc
  refine ⟨hbuf, hblocked, ?_, ?_, ?_⟩
  · intro m hm hkey
    have h2 := hblocked m hm
    have h1 : stepThread w.state (.pending (.move m)) = some (w.state, .moveSend a m) := by
      simp [stepThread, hkey, hm, hp01]
    simp [move, runThread, h1, h2]
  · cases c with
    | mk buf cap =>
      simp only at hbuf hcap
      subst hbuf hcap
      rfl
  · intro t s' t' hstep
    exact stepThread_full_mailbox hg hc hbuf hcap hstep

/-- The backpressure of C5 in a run: "m1" is queued on `Channels[0]` of session 1, and a
second `move` of slot 0 with "m2" is blocked at its send. -/
theorem mailbox_backpressure_witness :
    ∃ w, exec (World.init [.createGame "Alice", .move ⟨1, 0, "m1", false⟩,
              .move ⟨1, 0, "m2", false⟩]) [0, 0, 1, 1, 2] = some w ∧
      w.state.heap[0]? = some ⟨1, (⟨["m1"], 1⟩, ⟨[], 1⟩), "Alice", ""⟩ ∧
      w.threads[2]? = some (.moveSend 0 ⟨1, 0, "m2", false⟩) ∧
      step w 2 = none ∧
      stepThread w.state (.moveSend 0 ⟨1, 0, "m2", false⟩) = none :=
  ⟨_, rfl, rfl, rfl, rfl,
    ((mailbox_backpressure [.createGame "Alice", .move ⟨1, 0, "m1", false⟩,
        .move ⟨1, 0, "m2", false⟩] [0, 0, 1, 1, 2] _ rfl 0
        ⟨1, (⟨["m1"], 1⟩, ⟨[], 1⟩), "Alice", ""⟩ 0 ⟨["m1"], 1⟩ rfl rfl).2.2 "m1"
      (List.mem_singleton.2 rfl)).2.1 ⟨1, 0, "m2", false⟩ rfl⟩

/-! ## Where received values come from -/

theorem Game.chan_make_buf {k : Int} {n : String} {q : Int} {c : Chan}
    (h : (Game.mk k (Chan.make 1, Chan.make 1) n "").chan q = some c) : c.buf = [] := by
  unfold Game.chan at h
  split at h
  · cases h; rfl
  · split at h
    · cases h; rfl
    · exact absurd h (by simp)

theorem step_provenance {w w' : World} {i : Nat} (hw : w.Provenance)
    (hstep : step w i = some w') : w'.Provenance := by
  obtain ⟨t, s', t', _, hst, rfl⟩ := step_eq_some hstep
  have mono : ∀ (a : Nat) (q : Int) (v : String),
      (Event.moveSent a q v ∈ w.trace ∨ (q = 0 ∧ Event.joinSent a v ∈ w.trace)) →
      (Event.moveSent a q v ∈ w.trace ++ observe t t' ∨
        (q = 0 ∧ Event.joinSent a v ∈ w.trace ++ observe t t')) := by
    intro a q v h
    rcases h with h | ⟨h0, h⟩
    · exact Or.inl (List.mem_append_left _ h)
    · exact Or.inr ⟨h0, List.mem_append_left _ h⟩
  intro a g hg q c hc v hv
  simp only at hg
  cases stepThread_effect hst with
  | lookup r _ _ hs => subst hs; exact mono a q v (hw a g hg q c hc v hv)
  | alloc n _ hs _ => subst hs; exact mono a q v (hw a g hg q c hc v hv)
  | insert n k _ hs _ =>
    subst hs
    simp only [List.getElem?_append] at hg
    split at hg
    · exact mono a q v (hw a g hg q c hc v hv)
    · have hg' : g = ⟨k, (Chan.make 1, Chan.make 1), n, ""⟩ := by
        rcases Nat.eq_zero_or_pos (a - w.state.heap.length) with h0 | h0
        · rw [h0] at hg; simpa using hg.symm
        · rw [List.getElem?_eq_none (by simp only [List.length_singleton]; omega)] at hg
          exact absurd hg (by simp)
      subst hg'
      rw [Game.chan_make_buf hc] at hv
      exact absurd hv (by simp)
  | setPlayer2 b g0 n _ hg0 hs _ =>
    subst hs
    simp only [List.getElem?_set] at hg
    split at hg
    · rename_i hab
      subst hab
      split at hg
      · cases hg
        exact mono b q v (hw b g0 hg0 q c hc v hv)
      · exact absurd hg (by simp)
    · exact mono a q v (hw a g hg q c hc v hv)
  | send b g0 q0 c0 v0 hg0 hc0 hroom hs hkind _ =>
    subst hs
    simp only [List.getElem?_set] at hg
    split at hg
    · rename_i hab
      subst hab
      split at hg
      · cases hg
        by_cases hq : q = q0
        · subst hq
          rw [Game.chan_setChan_same hc0] at hc
          cases hc
          simp only [List.mem_append, List.mem_singleton] at hv
          rcases hv with hv | hv
          · exact mono b q v (hw b g0 hg0 q c0 hc0 v hv)
          · subst hv
            rcases hkind with ⟨m, rfl, rfl, rfl⟩ | ⟨rfl, rfl⟩
            · exact Or.inl (List.mem_append_right _ (by simp [observe]))
            · exact Or.inr ⟨rfl, List.mem_append_right _ (by simp [observe])⟩
        · rw [Game.chan_setChan_other hc0 hq] at hc
          exact mono b q v (hw b g0 hg0 q c hc v hv)
      · exact absurd hg (by simp)
    · exact mono a q v (hw a g hg q c hc v hv)
  | recv b g0 q0 c0 v0 rest hg0 hc0 hbuf0 hs _ _ =>
    subst hs
    simp only [List.getElem?_set] at hg
    split at hg
    · rename_i hab
      subst hab
      split at hg
      · cases hg
        by_cases hq : q = q0
        · subst hq
          rw [Game.chan_setChan_same hc0] at hc
          cases hc
          exact mono b q v (hw b g0 hg0 q c0 hc0 v (by rw [hbuf0]; exact List.mem_cons_of_mem _ hv))
        · rw [Game.chan_setChan_other hc0 hq] at hc
          exact mono b q v (hw b g0 hg0 q c hc v hv)
      · exact absurd hg (by simp)
    · exact mono a q v (hw a g hg q c hc v hv)

theorem exec_provenance (reqs : List Request) (sched : List Nat) (w : World)
    (h : exec (World.init reqs) sched = some w) : w.Provenance := by
  refine exec_invariant (fun w => w.Provenance) ?_ sched _ w ?_ h
  · intro w i w' hP hstep
    exact step_provenance hP hstep
  · intro a g hg
    simp [World.init, State.init] at hg

/-- C8 (as the code has it): in every reachable state, when a non-final `move` of slot
`p` on the session at `a` performs its receive, it finishes with a string `r` handed to
the response writer, and `r` was sent earlier on `Channels[1-p]` of that same session:
either by a `move` of slot `1-p`, or, when `p = 1`, by `joinGame` (the joining player's
name, which `joinGame` queues on `Channels[0]`). -/
theorem move_returns_sent_value (reqs : List Request) (sched : List Nat) (w : World)
    (hreach : exec (World.init reqs) sched = some w)
    (i : Nat) (w' : World) (a : Nat) (m : Move)
    (hthread : w.threads[i]? = some (.moveRecv a m)) (hstep : step w i = some w') :
    ∃ r, w'.threads[i]? = some (.responded (some r)) ∧
      w'.trace = w.trace ++ [.moveReturned a m.Player r] ∧
      (m.Player = 0 ∨ m.Player = 1) ∧
      (Event.moveSent a (1 - m.Player) r ∈ w.trace ∨
        (m.Player = 1 ∧ Event.joinSent a r ∈ w.trace)) := by
  have hprov := exec_provenance reqs sched w hreach
  obtain ⟨t, s', t', ht, hst, rfl⟩ := step_eq_some hstep
  rw [hthread] at ht
  cases ht
  have hi : i < w.threads.length := by
    obtain ⟨hlt, _⟩ := List.getElem?_eq_some.1 hthread
    exact hlt
  cases stepThread_effect hst with
  | lookup r h _ _ => exact absurd h (by simp)
  | alloc n h _ _ => exact absurd h (by simp)
  | insert n k h _ _ => exact absurd h (by simp)
  | setPlayer2 b g0 n h _ _ _ => exact absurd h (by simp)
  | send b g0 q0 c0 v0 _ _ _ _ hkind _ =>
    rcases hkind with ⟨m', h, _⟩ | ⟨h, _⟩ <;> exact absurd h (by simp)
  | recv b g0 q0 c0 v0 rest hg0 hc0 hbuf0 hs ht' hkind =>
    rcases hkind with ⟨m', h, hq⟩ | ⟨h, _⟩
    · simp only [Thread.moveRecv.injEq] at h
      obtain ⟨rfl, rfl⟩ := h
      subst ht' hq
      have hsent := hprov a g0 hg0 (1 - m.Player) c0 hc0 v0 (by rw [hbuf0]; simp)
      have hp : m.Player = 0 ∨ m.Player = 1 := by
        unfold Game.chan at hc0
        by_cases h0 : 1 - m.Player = 0
        · right; omega
        · by_cases h1 : 1 - m.Player = 1
          · left; omega
          · simp [h0, h1] at hc0
      refine ⟨v0, by simp [hi], by simp [observe], hp, ?_⟩
      rcases hsent with h | ⟨h0, h⟩
      · exact Or.inl h
      · exact Or.inr ⟨by omega, h⟩
    · exact absurd h (by simp)

/-- The provenance of C8 in a run: the slot-0 `move` receives "e7e5", which the slot-1
`move` sent before. -/
theorem move_returns_sent_value_witness :
    ∃ w w', exec (World.init [.createGame "Alice", .move ⟨1, 0, "e2e4", false⟩,
              .move ⟨1, 1, "e7e5", false⟩]) [0, 0, 1, 1, 2, 2] = some w ∧
      w.threads[1]? = some (.moveRecv 0 ⟨1, 0, "e2e4", false⟩) ∧
      step w 1 = some w' ∧
      ∃ r, w'.threads[1]? = some (.responded (some r)) ∧
        w'.trace = w.trace ++ [.moveReturned 0 0 r] ∧
        ((0 : Int) = 0 ∨ (0 : Int) = 1) ∧
        (Event.moveSent 0 (1 - 0) r ∈ w.trace ∨ ((0 : Int) = 1 ∧ Event.joinSent 0 r ∈ w.trace)) :=
  ⟨_, _, rfl, rfl, rfl,
    move_returns_sent_value [.createGame "Alice", .move ⟨1, 0, "e2e4", false⟩,
      .move ⟨1, 1, "e7e5", false⟩] [0, 0, 1, 1, 2, 2] _ rfl 1 _ 0 ⟨1, 0, "e2e4", false⟩ rfl rfl⟩

/-- C8, counterexample: after `createGame "Alice"` and a completed `joinGame 1 "Bob"`,
with no `checkJoinGame` having consumed the join signal, the non-final
`move(1, 1, "e7e5", false)` returns "Bob": the name queued by `joinGame`, not a payload
sent by a `move` of slot 0 (no `move` of slot 0 exists in this run). -/
theorem move_returns_join_name :
    (exec (World.init [.createGame "Alice", .joinGame 1 "Bob", .move ⟨1, 1, "e7e5", false⟩])
        [0, 0, 1, 1, 1, 2, 2, 2]).map (fun w => (w.threads, w.trace))
      = some ([.responded (some "1"), .responded (some "Alice"), .responded (some "Bob")],
          [.joinSent 0 "Bob", .moveSent 0 1 "e7e5", .moveReturned 0 1 "Bob"]) := by
  decide

/-! ## The registry -/

theorem threads_set_createInsert {threads : List Thread} {i j : Nat} {t' : Thread}
    {n : String} {k : Int} (ht' : ∀ n k, t' ≠ .createInsert n k)
    (h : (threads.set i t')[j]? = some (.createInsert n k)) :
    j ≠ i ∧ threads[j]? = some (.createInsert n k) := by
  simp only [List.getElem?_set] at h
  split at h
  · split at h
    · exact absurd (Option.some.inj h) (ht' n k)
    · exact absurd h (by simp)
  · rename_i hij
    exact ⟨fun e => hij e.symm, h⟩

theorem heap_set_ID {heap : List Game} {b : Nat} {g g' : Game} (hg : heap[b]? = some g)
    (hID : g'.ID = g.ID) {a : Nat} {g1 : Game} (h : heap[a]? = some g1) :
    ∃ g2 : Game, (heap.set b g')[a]? = some g2 ∧ g2.ID = g1.ID := by
  by_cases hab : b = a
  · subst hab
    rw [hg] at h
    cases h
    exact ⟨g', by simp [lt_length_of_heap hg], hID⟩
  · exact ⟨g1, by simpa [List.getElem?_set_ne hab] using h, rfl⟩

theorem Game.setChan_ID (g : Game) (q : Int) (c : Chan) : (g.setChan q c).ID = g.ID := by
  unfold Game.setChan
  split
  · rfl
  · split <;> rfl

/-- Steps that only rewrite one game in place, keeping its `ID`, keep the invariant. -/
theorem registryInv_of_heap_set {w : World} {i : Nat} {t' : Thread} {b : Nat} {g g' : Game}
    {tr : List Event} (hw : w.RegistryInv) (hg : w.state.heap[b]? = some g)
    (hID : g'.ID = g.ID) (ht' : ∀ n k, t' ≠ .createInsert n k) :
    World.RegistryInv ⟨{ w.state with heap := w.state.heap.set b g' }, w.threads.set i t', tr⟩ := by
  obtain ⟨h0, hkeys, hpend, huniq⟩ := hw
  refine ⟨h0, ?_, ?_, ?_⟩
  · intro k a hk
    obtain ⟨h1, h2, g1, hg1, hid⟩ := hkeys k a hk
    obtain ⟨g2, hg2, hid2⟩ := heap_set_ID hg hID hg1
    exact ⟨h1, h2, g2, hg2, hid2.trans hid⟩
  · intro j n k hj
    exact hpend j n k (threads_set_createInsert ht' hj).2
  · intro j1 j2 n n' k hj1 hj2
    exact huniq j1 j2 n n' k (threads_set_createInsert ht' hj1).2
      (threads_set_createInsert ht' hj2).2

theorem step_registryInv {w w' : World} {i : Nat} (hw : w.RegistryInv)
    (hmax : w.state.idCounter < maxInt) (hstep : step w i = some w') :
    w'.RegistryInv ∧ w'.state.idCounter ≤ w.state.idCounter + 1 := by
  obtain ⟨t, s', t', hti, hst, rfl⟩ := step_eq_some hstep
  have hi : i < w.threads.length := by
    obtain ⟨hlt, _⟩ := List.getElem?_eq_some.1 hti
    exact hlt
  cases stepThread_effect hst with
  | lookup r _ _ hs ht' =>
    subst hs
    obtain ⟨h0, hkeys, hpend, huniq⟩ := hw
    refine ⟨⟨h0, hkeys, ?_, ?_⟩, by simp⟩
    · intro j n k hj
      exact hpend j n k (threads_set_createInsert ht' hj).2
    · intro j1 j2 n n' k hj1 hj2
      exact huniq j1 j2 n n' k (threads_set_createInsert ht' hj1).2
        (threads_set_createInsert ht' hj2).2
  | alloc n _ hs ht' =>
    subst hs ht'
    obtain ⟨h0, hkeys, hpend, huniq⟩ := hw
    have hwrap : wrapInt (w.state.idCounter + 1) = w.state.idCounter + 1 :=
      wrapInt_of_inRange _ (by unfold minInt; omega) (by omega)
    have hnew : ∀ (j : Nat) (n' : String) (k : Int),
        ((w.threads.set i (.createInsert n (generateID w.state).1))[j]?
            = some (.createInsert n' k)) →
        (j = i ∧ k = w.state.idCounter + 1) ∨
          (j ≠ i ∧ w.threads[j]? = some (.createInsert n' k)) := by
      intro j n' k hj
      by_cases hij : i = j
      · subst hij
        rw [List.getElem?_set_self hi] at hj
        simp only [generateID, hwrap, Option.some.injEq, Thread.createInsert.injEq] at hj
        exact Or.inl ⟨rfl, hj.2.symm⟩
      · rw [List.getElem?_set_ne hij] at hj
        exact Or.inr ⟨fun e => hij e.symm, hj⟩
    refine ⟨⟨?_, ?_, ?_, ?_⟩, ?_⟩
    · simp only [generateID, hwrap]; omega
    · intro k a hk
      obtain ⟨h1, h2, hg⟩ := hkeys k a hk
      refine ⟨h1, ?_, hg⟩
      simp only [generateID, hwrap]; omega
    · intro j n' k hj
      simp only [generateID, hwrap]
      rcases hnew j n' k hj with ⟨_, rfl⟩ | ⟨_, hold⟩
      · refine ⟨by omega, le_refl _, ?_⟩
        cases hk : w.state.gameData (w.state.idCounter + 1) with
        | none => rfl
        | some a =>
          have := (hkeys _ a hk).2.1
          omega
      · obtain ⟨h1, h2, h3⟩ := hpend j n' k hold
        exact ⟨h1, by omega, h3⟩
    · intro j1 j2 n1 n2 k hj1 hj2
      rcases hnew j1 n1 k hj1 with ⟨e1, hk1⟩ | ⟨_, hold1⟩
      · rcases hnew j2 n2 k hj2 with ⟨e2, _⟩ | ⟨_, hold2⟩
        · rw [e1, e2]
        · have := (hpend j2 n2 k hold2).2.1
          omega
      · rcases hnew j2 n2 k hj2 with ⟨_, hk2⟩ | ⟨_, hold2⟩
        · have := (hpend j1 n1 k hold1).2.1
          omega
        · exact huniq j1 j2 n1 n2 k hold1 hold2
    · simp only [generateID, hwrap]; omega
  | insert n k ht hs ht' =>
    subst hs ht' ht
    obtain ⟨h0, hkeys, hpend, huniq⟩ := hw
    have hresp : ∀ n k, Thread.responded (some (Itoa k)) ≠ .createInsert n k := by simp
    obtain ⟨hk1, hk2, hknone⟩ := hpend i n k hti
    refine ⟨⟨h0, ?_, ?_, ?_⟩, by simp⟩
    · intro k' a hk'
      simp only at hk'
      split at hk'
      · rename_i hkk
        subst hkk
        cases hk'
        exact ⟨hk1, hk2, ⟨k', (Chan.make 1, Chan.make 1), n, ""⟩, by simp, rfl⟩
      · obtain ⟨h1, h2, g, hg, hid⟩ := hkeys k' a hk'
        exact ⟨h1, h2, g, by simpa [List.getElem?_append_left (lt_length_of_heap hg)] using hg,
          hid⟩
    · intro j n' k' hj
      obtain ⟨hji, hold⟩ := threads_set_createInsert (by simp) hj
      obtain ⟨h1, h2, h3⟩ := hpend j n' k' hold
      refine ⟨h1, h2, ?_⟩
      have hkk : k' ≠ k := by
        intro e
        subst e
        exact hji (huniq j i n' n k' hold hti)
      simpa [hkk] using h3
    · intro j1 j2 n1 n2 k' hj1 hj2
      exact huniq j1 j2 n1 n2 k' (threads_set_createInsert (by simp) hj1).2
        (threads_set_createInsert (by simp) hj2).2
  | setPlayer2 b g n _ hg hs ht' =>
    subst hs ht'
    exact ⟨registryInv_of_heap_set hw hg rfl (by simp), by simp⟩
  | send b g q c v hg _ _ hs _ ht' =>
    subst hs
    exact ⟨registryInv_of_heap_set hw hg (Game.setChan_ID _ _ _) ht', by simp⟩
  | recv b g q c v rest hg _ _ hs ht' _ =>
    subst hs ht'
    exact ⟨registryInv_of_heap_set hw hg (Game.setChan_ID _ _ _) (by simp), by simp⟩

theorem exec_registryInv (sched : List Nat) :
    ∀ (w w' : World), w.RegistryInv → w.state.idCounter + sched.length ≤ maxInt →
      exec w sched = some w' →
      w'.RegistryInv ∧ w'.state.idCounter ≤ w.state.idCounter + sched.length := by
  induction sched with
  | nil =>
    intro w w' hw _ h
    simp only [exec, Option.some.injEq] at h
    subst h
    exact ⟨hw, by simp⟩
  | cons i sched ih =>
    intro w w' hw hlen h
    simp only [exec] at h
    simp only [List.length_cons, Nat.cast_add, Nat.cast_one] at hlen
    split at h
    · exact absurd h (by simp)
    · rename_i w1 h1
      obtain ⟨hw1, hc1⟩ := step_registryInv hw (by omega) h1
      obtain ⟨hw', hc'⟩ := ih w1 w' hw1 (by omega) h
      refine ⟨hw', ?_⟩
      simp only [List.length_cons, Nat.cast_add, Nat.cast_one]
      omega

theorem init_registryInv (reqs : List Request) : (World.init reqs).RegistryInv := by
  refine ⟨le_refl _, ?_, ?_, ?_⟩
  · intro k a h
    simp [World.init, State.init] at h
  · intro i n k h
    simp only [World.init, List.getElem?_map] at h
    cases hr : reqs[i]? <;> simp [hr] at h
  · intro i j n n' k h
    simp only [World.init, List.getElem?_map] at h
    cases hr : reqs[i]? <;> simp [hr] at h

theorem step_gameData {w w' : World} {i : Nat} (hw : w.RegistryInv)
    (hstep : step w i = some w') (k : Int) (a : Nat) (hk : w.state.gameData k = some a) :
    w'.state.gameData k = some a := by
  obtain ⟨t, s', t', hti, hst, rfl⟩ := step_eq_some hstep
  cases stepThread_effect hst with
  | lookup r _ _ hs _ => subst hs; exact hk
  | alloc n _ hs _ => subst hs; exact hk
  | insert n k0 ht hs _ =>
    subst hs ht
    have hnone := (hw.2.2.1 i n k0 hti).2.2
    have hkk : k ≠ k0 := by
      intro e
      subst e
      rw [hnone] at hk
      exact absurd hk (by simp)
    simpa [hkk] using hk
  | setPlayer2 b g n _ _ hs _ => subst hs; exact hk
  | send b g q c v _ _ _ hs _ _ => subst hs; exact hk
  | recv b g q c v rest _ _ _ hs _ _ => subst hs; exact hk

/-- C10: the registry invariant. In every state reached from start-up (empty map,
counter 0) by fewer than `maxInt` atomic actions of the handlers: every key `k` of
`gameData` satisfies `1 ≤ k ≤ idCounter` and the game stored under `k` has `ID = k`; an id
that a `createGame` is about to insert is not a key, and neither is the id the next
`generateID` would return, so `createGame` always inserts under a new key; and no action
of any handler removes an entry or replaces the game pointer stored under a key, whose
game keeps `ID = k`. -/
theorem registry_invariant (reqs : List Request) (sched : List Nat) (w : World)
    (hreach : exec (World.init reqs) sched = some w) (hlen : (sched.length : Int) < maxInt) :
    (∀ (k : Int) (a : Nat), w.state.gameData k = some a →
      1 ≤ k ∧ k ≤ w.state.idCounter ∧ ∃ g : Game, w.state.heap[a]? = some g ∧ g.ID = k) ∧
    (∀ (k : Int) (g : Game), w.state.lookup k = some g →
      1 ≤ k ∧ k ≤ w.state.idCounter ∧ g.ID = k) ∧
    (∀ (i : Nat) (n : String) (k : Int), w.threads[i]? = some (.createInsert n k) →
      w.state.gameData k = none) ∧
    w.state.gameData (generateID w.state).1 = none ∧
    (∀ (i : Nat) (w' : World), step w i = some w' →
      ∀ (k : Int) (a : Nat), w.state.gameData k = some a →
        w'.state.gameData k = some a ∧ ∃ g' : Game, w'.state.heap[a]? = some g' ∧ g'.ID = k) := by
  have h0 : (World.init reqs).state.idCounter = 0 := rfl
  obtain ⟨hinv, hcount⟩ := exec_registryInv sched (World.init reqs) w (init_registryInv reqs)
    (by rw [h0]; omega) hreach
  rw [h0] at hcount
  have hmax : w.state.idCounter < maxInt := by omega
  refine ⟨hinv.2.1, ?_, ?_, ?_, ?_⟩
  · intro k g hk
    unfold State.lookup at hk
    split at hk
    · exact absurd hk (by simp)
    · rename_i a ha
      obtain ⟨h1, h2, g', hg', hid⟩ := hinv.2.1 k a ha
      rw [hg'] at hk
      cases hk
      exact ⟨h1, h2, hid⟩
  · intro i n k hi
    exact (hinv.2.2.1 i n k hi).2.2
  · have hwrap : wrapInt (w.state.idCounter + 1) = w.state.idCounter + 1 :=
      wrapInt_of_inRange _ (by have := hinv.1; unfold minInt; omega) (by omega)
    simp only [generateID, hwrap]
    cases hk : w.state.gameData (w.state.idCounter + 1) with
    | none => rfl
    | some a =>
      have := (hinv.2.1 _ a hk).2.1
      omega
  · intro i w' hstep k a hk
    have hk' := step_gameData hinv hstep k a hk
    obtain ⟨hinv', _⟩ := step_registryInv hinv hmax hstep
    obtain ⟨_, _, g', hg', hid⟩ := hinv'.2.1 k a hk'
    exact ⟨hk', g', hg', hid⟩

/-- The invariant of C10 in a run of two interleaved `createGame` calls: the second call
inserts first, so key 2 points to the first game object and key 1 to the second. -/
theorem registry_invariant_witness :
    ∃ w, exec (World.init [.createGame "Alice", .createGame "Carol"]) [0, 1, 1, 0] = some w ∧
      ((4 : Nat) : Int) < maxInt ∧
      w.state.idCounter = 2 ∧ w.state.gameData 1 = some 1 ∧ w.state.gameData 2 = some 0 ∧
      ∀ (k : Int) (g : Game), w.state.lookup k = some g →
        1 ≤ k ∧ k ≤ w.state.idCounter ∧ g.ID = k :=
  ⟨_, rfl, by decide, rfl, rfl, rfl,
    (registry_invariant [.createGame "Alice", .createGame "Carol"] [0, 1, 1, 0] _ rfl
      (by decide)).2.1⟩

/-! ## Response bodies -/

/-- C9: the response bodies of one run in which the two names and a payload contain
the character `%`. `joinGame` is handed the name "50%" and writes "50%!(NOVERB)";
`checkJoinGame` is handed "%d" and writes "%!d(MISSING)"; the `move` of slot 0 is handed
the opponent's payload "100%" and writes "100%!(NOVERB)". The body is the string itself
only where the string has no `%` ("1" and "a" here). -/
theorem response_mangles_percent :
    (exec (World.init [.createGame "50%", .joinGame 1 "%d", .checkJoinGame 1,
            .move ⟨1, 1, "100%", false⟩, .move ⟨1, 0, "a", false⟩])
        [0, 0, 1, 1, 1, 2, 2, 3, 3, 4, 4, 4, 3]).map
        (fun w => (w.threads, w.threads.map Thread.body))
      = some ([.responded (some "1"), .responded (some "50%"), .responded (some "%d"),
            .responded (some "a"), .responded (some "100%")],
          [some "1", some "50%!(NOVERB)", some "%!d(MISSING)", some "a",
            some "100%!(NOVERB)"]) := by
  decide

/-! ## The relay round trip -/

theorem heap_set_self {heap : List Game} {a : Nat} {g : Game} (h : heap[a]? = some g) :
    heap.set a g = heap := by
  apply List.ext_getElem?
  intro n
  by_cases hn : a = n
  · subst hn
    rw [List.getElem?_set_self (lt_length_of_heap h), h]
  · rw [List.getElem?_set_ne hn]

theorem relayAt_step {s : State} {gid : Int} {a : Nat} {g : Game} {x y : String}
    {pc0 pc1 : Nat} {w w' : World} {i : Nat}
    (hkey : s.gameData gid = some a) (hg : s.heap[a]? = some g)
    (hc0 : 0 < g.Channels.1.cap) (hc1 : 0 < g.Channels.2.cap)
    (hw : RelayAt s gid a g x y pc0 pc1 w) (hstep : step w i = some w') :
    (i = 0 ∧ RelayAt s gid a g x y (pc0 + 1) pc1 w') ∨
    (i = 1 ∧ RelayAt s gid a g x y pc0 (pc1 + 1) w') := by
  obtain ⟨hp0, hp1, h03, h13, hthreads, hstate⟩ := hw
  have hlt := lt_length_of_heap hg
  obtain ⟨t, s', t', hti, hst, rfl⟩ := step_eq_some hstep
  rw [hthreads] at hti
  rw [hstate] at hst
  match i, hti with
  | 0, hti =>
    left
    simp only [List.getElem?_cons_zero, Option.some.injEq] at hti
    subst hti
    refine ⟨rfl, ?_⟩
    interval_cases pc0 <;> interval_cases pc1 <;>
      simp_all [relayThread, relayGame, stepThread, Game.chan, Game.setChan, Chan.send,
        Chan.recv, List.set_set] <;>
      (obtain ⟨rfl, rfl⟩ := hst
       exact ⟨by omega, by omega, by omega, by omega, rfl, rfl⟩)
  | 1, hti =>
    right
    simp only [List.getElem?_cons_succ, List.getElem?_cons_zero, Option.some.injEq] at hti
    subst hti
    refine ⟨rfl, ?_⟩
    interval_cases pc0 <;> interval_cases pc1 <;>
      simp_all [relayThread, relayGame, stepThread, Game.chan, Game.setChan, Chan.send,
        Chan.recv, List.set_set] <;>
      (obtain ⟨rfl, rfl⟩ := hst
       exact ⟨by omega, by omega, by omega, by omega, rfl, rfl⟩)
  | n + 2, hti => simp at hti

theorem relayAt_exec {s : State} {gid : Int} {a : Nat} {g : Game} {x y : String}
    (hkey : s.gameData gid = some a) (hg : s.heap[a]? = some g)
    (hc0 : 0 < g.Channels.1.cap) (hc1 : 0 < g.Channels.2.cap) (sched : List Nat) :
    ∀ (pc0 pc1 : Nat) (w w' : World), RelayAt s gid a g x y pc0 pc1 w →
      exec w sched = some w' →
      ∃ pc0' pc1', RelayAt s gid a g x y pc0' pc1' w' ∧
        pc0' + pc1' = pc0 + pc1 + sched.length := by
  induction sched with
  | nil =>
    intro pc0 pc1 w w' hw h
    simp only [exec, Option.some.injEq] at h
    subst h
    exact ⟨pc0, pc1, hw, by simp⟩
  | cons i sched ih =>
    intro pc0 pc1 w w' hw h
    simp only [exec] at h
    split at h
    · exact absurd h (by simp)
    · rename_i w1 h1
      rcases relayAt_step hkey hg hc0 hc1 hw h1 with ⟨_, hw1⟩ | ⟨_, hw1⟩
      · obtain ⟨p, q, hw', hsum⟩ := ih (pc0 + 1) pc1 w1 w' hw1 h
        exact ⟨p, q, hw', by simp only [List.length_cons]; omega⟩
      · obtain ⟨p, q, hw', hsum⟩ := ih pc0 (pc1 + 1) w1 w' hw1 h
        exact ⟨p, q, hw', by simp only [List.length_cons]; omega⟩

theorem relayAt_progress {s : State} {gid : Int} {a : Nat} {g : Game} {x y : String}
    {pc0 pc1 : Nat} {w : World}
    (hkey : s.gameData gid = some a) (hg : s.heap[a]? = some g)
    (hc0 : 0 < g.Channels.1.cap) (hc1 : 0 < g.Channels.2.cap)
    (hw : RelayAt s gid a g x y pc0 pc1 w) (hstuck : ∀ i, step w i = none) :
    pc0 = 3 ∧ pc1 = 3 := by
  obtain ⟨hp0, hp1, h03, h13, hthreads, hstate⟩ := hw
  have hlt := lt_length_of_heap hg
  have h0 := hstuck 0
  have h1 := hstuck 1
  simp only [step, hthreads, hstate, List.getElem?_cons_zero, List.getElem?_cons_succ] at h0 h1
  interval_cases pc0 <;> interval_cases pc1 <;>
    simp_all [relayThread, relayGame, stepThread, Game.chan, Game.setChan, Chan.send, Chan.recv]

/-- C3: the relay round trip. On a session whose two mailboxes are empty, start
`move(id, 0, x, false)` and `move(id, 1, y, false)` and let them run under any schedule.
Whatever the schedule did so far: it has at most six actions, before the sixth some
call can always move, and after the sixth both calls have returned; if the slot-0 call has
returned, then the string it handed to the response writer is `y` and the slot-1 call
is past its send; if the slot-1 call has returned, it handed `x` to the response writer
and the slot-0 call is past its send; no call has panicked; and when neither call can
move any more, both have returned, with `y` and `x`, and both mailboxes are empty. The
strings named are the ones handed to the response writer; the bodies written are
`fmtSprintf` of them, which is the string itself when it contains no `%`. -/
theorem relay_round_trip (s : State) (gid : Int) (a : Nat) (g : Game) (x y : String)
    (hkey : s.gameData gid = some a) (hg : s.heap[a]? = some g)
    (he0 : g.Channels.1.buf = []) (he1 : g.Channels.2.buf = [])
    (hc0 : 0 < g.Channels.1.cap) (hc1 : 0 < g.Channels.2.cap)
    (sched : List Nat) (w : World)
    (hexec : exec ⟨s, [.pending (.move ⟨gid, 0, x, false⟩), .pending (.move ⟨gid, 1, y, false⟩)],
        []⟩ sched = some w) :
    sched.length ≤ 6 ∧
    (∀ r, w.threads[0]? = some (.responded r) →
      r = some y ∧ (w.threads[1]? = some (.moveRecv a ⟨gid, 1, y, false⟩) ∨
        w.threads[1]? = some (.responded (some x)))) ∧
    (∀ r, w.threads[1]? = some (.responded r) →
      r = some x ∧ (w.threads[0]? = some (.moveRecv a ⟨gid, 0, x, false⟩) ∨
        w.threads[0]? = some (.responded (some y)))) ∧
    (∀ i : Nat, w.threads[i]? ≠ some Thread.panicked) ∧
    (sched.length < 6 → ∃ i w', step w i = some w') ∧
    (sched.length = 6 → w.threads = [.responded (some y), .responded (some x)]) ∧
    ((∀ i, step w i = none) →
      w.threads = [.responded (some y), .responded (some x)] ∧
      w.threads.map Thread.body = [some (fmtSprintf y), some (fmtSprintf x)] ∧
      ('%' ∉ y.data → fmtSprintf y = y) ∧ ('%' ∉ x.data → fmtSprintf x = x) ∧
      ∃ g' : Game, w.state.heap[a]? = some g' ∧
        g'.Channels.1.buf = [] ∧ g'.Channels.2.buf = []) := by
  have hlt := lt_length_of_heap hg
  have hinit : RelayAt s gid a g x y 0 0
      ⟨s, [.pending (.move ⟨gid, 0, x, false⟩), .pending (.move ⟨gid, 1, y, false⟩)], []⟩ := by
    refine ⟨by omega, by omega, by omega, by omega, rfl, ?_⟩
    have hgame : relayGame g x y 0 0 = g := by
      cases g with
      | mk ID Channels P1 P2 =>
        obtain ⟨⟨b0, c0⟩, ⟨b1, c1⟩⟩ := Channels
        simp only at he0 he1
        subst he0 he1
        rfl
    simp only [hgame, heap_set_self hg]
  obtain ⟨pc0, pc1, hw, hsum⟩ := relayAt_exec hkey hg hc0 hc1 sched 0 0 _ w hinit hexec
  have hw' := hw
  obtain ⟨hp0, hp1, h03, h13, hthreads, hstate⟩ := hw
  refine ⟨by omega, ?_, ?_, ?_, ?_, ?_, ?_⟩
  · intro r hr
    rw [hthreads] at hr ⊢
    simp only [List.getElem?_cons_zero, List.getElem?_cons_succ, Option.some.injEq] at hr ⊢
    clear hexec hinit hw' hstate hthreads hsum
    interval_cases pc0 <;> interval_cases pc1 <;> simp_all [relayThread]
  · intro r hr
    rw [hthreads] at hr ⊢
    simp only [List.getElem?_cons_zero, List.getElem?_cons_succ, Option.some.injEq] at hr ⊢
    clear hexec hinit hw' hstate hthreads hsum
    interval_cases pc0 <;> interval_cases pc1 <;> simp_all [relayThread]
  · intro i hi
    rw [hthreads] at hi
    match i, hi with
    | 0, hi => interval_cases pc0 <;> simp [relayThread] at hi
    | 1, hi => interval_cases pc1 <;> simp [relayThread] at hi
    | n + 2, hi => simp at hi
  · intro hshort
    by_contra hno
    have hstuck : ∀ i, step w i = none := by
      intro i
      cases hs : step w i with
      | none => rfl
      | some w1 => exact absurd ⟨i, w1, hs⟩ hno
    obtain ⟨rfl, rfl⟩ := relayAt_progress hkey hg hc0 hc1 hw' hstuck
    omega
  · intro hfull
    have h0 : pc0 = 3 := by omega
    have h1 : pc1 = 3 := by omega
    subst h0 h1
    exact hthreads
  · intro hstuck
    obtain ⟨rfl, rfl⟩ := relayAt_progress hkey hg hc0 hc1 hw' hstuck
    refine ⟨hthreads, by rw [hthreads]; rfl, fmtSprintf_verbatim y, fmtSprintf_verbatim x,
      relayGame g x y 3 3, ?_, rfl, rfl⟩
    rw [hstate]
    simp [hlt]

/-- The round trip of C3 on a session that was created, joined and whose join signal was
consumed, with payloads "e2e4" and "e7e5". -/
theorem relay_round_trip_witness :
    ∃ w, exec ⟨(checkJoinGame (joinGame (createGame State.init "Alice").1 1 "Bob").1 1).1,
          [.pending (.move ⟨1, 0, "e2e4", false⟩), .pending (.move ⟨1, 1, "e7e5", false⟩)], []⟩
          [0, 0, 1, 1, 1, 0] = some w ∧
      w.threads = [.responded (some "e7e5"), .responded (some "e2e4")] ∧
      w.trace = [.moveSent 0 0 "e2e4", .moveSent 0 1 "e7e5", .moveReturned 0 1 "e2e4",
        .moveReturned 0 0 "e7e5"] ∧
      w.state.heap = [⟨1, (⟨[], 1⟩, ⟨[], 1⟩), "Alice", "Bob"⟩] ∧
      ∀ r, w.threads[0]? = some (.responded r) →
        r = some "e7e5" ∧ (w.threads[1]? = some (.moveRecv 0 ⟨1, 1, "e7e5", false⟩) ∨
          w.threads[1]? = some (.responded (some "e2e4"))) :=
  ⟨_, rfl, rfl, rfl, rfl,
    (relay_round_trip (checkJoinGame (joinGame (createGame State.init "Alice").1 1 "Bob").1 1).1
      1 0 ⟨1, (⟨[], 1⟩, ⟨[], 1⟩), "Alice", "Bob"⟩ "e2e4" "e7e5" rfl rfl rfl rfl
      (by decide) (by decide) [0, 0, 1, 1, 1, 0] _ rfl).2.1⟩

end BttBackend
